import Mathlib

/-!
Verification development for the paiboonizer Thai→Paiboon romanization engine.

The Go sources are shallowly embedded over `List Char` (Go iterates strings as
`[]rune`, which corresponds one-to-one to `List Char`).  The three dictionary
stores (word dictionary, syllable dictionary, special cases) are loaded from
vocabulary data embedded at build time and from a large in-source map; they are
modelled as parameters of type `Store` so that theorems quantify over their
contents.
-/

namespace Paiboonizer

abbrev Str := List Char

abbrev Store := Str → Option Str

/-- Thai consonant code points, from the Go helper `isConsonant` /
`isConsonantRune` (both use the same character set; all call sites pass a
single rune). -/
def thaiConsonants : List Char :=
  ['ก','ข','ฃ','ค','ฅ','ฆ','ง','จ','ฉ','ช','ซ','ฌ','ญ','ฎ','ฏ','ฐ','ฑ','ฒ',
   'ณ','ด','ต','ถ','ท','ธ','น','บ','ป','ผ','ฝ','พ','ฟ','ภ','ม','ย','ร','ฤ',
   'ล','ฦ','ว','ศ','ษ','ส','ห','ฬ','อ','ฮ']

def isConsonant (c : Char) : Bool := thaiConsonants.contains c

/-- Thai vowel code points, from `isVowel` / `isVowelRune` (same set). -/
def thaiVowels : List Char :=
  ['ะ','ั','า','ิ','ี','ึ','ื','ุ','ู','เ','แ','โ','ใ','ไ','ๅ','ำ']

def isVowel (c : Char) : Bool := thaiVowels.contains c

def isLeadingVowel (c : Char) : Bool :=
  c = 'เ' || c = 'แ' || c = 'โ' || c = 'ไ' || c = 'ใ'

def isToneMark (c : Char) : Bool :=
  c = '่' || c = '้' || c = '๊' || c = '๋'

def isRomanVowel (c : Char) : Bool :=
  (['a','e','i','o','u','ə','ɛ','ɔ','ʉ'] : List Char).contains c

/-- The thanthakhat (silencing) mark ์ U+0E4C. -/
def ham : Char := '์'

/-- `initialConsonants` table: Thai consonant → initial romanization. -/
def initialConsonants (c : Char) : Option Str :=
  if c = 'ก' then some ['g'] else if c = 'ข' then some ['k'] else
  if c = 'ฃ' then some ['k'] else if c = 'ค' then some ['k'] else
  if c = 'ฅ' then some ['k'] else if c = 'ฆ' then some ['k'] else
  if c = 'ง' then some ['n','g'] else if c = 'จ' then some ['j'] else
  if c = 'ฉ' then some ['c','h'] else if c = 'ช' then some ['c','h'] else
  if c = 'ซ' then some ['s'] else if c = 'ฌ' then some ['c','h'] else
  if c = 'ญ' then some ['y'] else if c = 'ฎ' then some ['d'] else
  if c = 'ฏ' then some ['d','t'] else if c = 'ฐ' then some ['t'] else
  if c = 'ฑ' then some ['t'] else if c = 'ฒ' then some ['t'] else
  if c = 'ณ' then some ['n'] else if c = 'ด' then some ['d'] else
  if c = 'ต' then some ['d','t'] else if c = 'ถ' then some ['t'] else
  if c = 'ท' then some ['t'] else if c = 'ธ' then some ['t'] else
  if c = 'น' then some ['n'] else if c = 'บ' then some ['b'] else
  if c = 'ป' then some ['b','p'] else if c = 'ผ' then some ['p'] else
  if c = 'ฝ' then some ['f'] else if c = 'พ' then some ['p'] else
  if c = 'ฟ' then some ['f'] else if c = 'ภ' then some ['p'] else
  if c = 'ม' then some ['m'] else if c = 'ย' then some ['y'] else
  if c = 'ร' then some ['r'] else if c = 'ฤ' then some ['r','ʉ'] else
  if c = 'ล' then some ['l'] else if c = 'ฦ' then some ['l','ʉ'] else
  if c = 'ว' then some ['w'] else if c = 'ศ' then some ['s'] else
  if c = 'ษ' then some ['s'] else if c = 'ส' then some ['s'] else
  if c = 'ห' then some ['h'] else if c = 'ฬ' then some ['l'] else
  if c = 'อ' then some [] else if c = 'ฮ' then some ['h'] else none

/-- `finalConsonants` table: Thai consonant → final romanization. -/
def finalConsonants (c : Char) : Option Str :=
  if c = 'ก' then some ['k'] else if c = 'ข' then some ['k'] else
  if c = 'ฃ' then some ['k'] else if c = 'ค' then some ['k'] else
  if c = 'ฅ' then some ['k'] else if c = 'ฆ' then some ['k'] else
  if c = 'ง' then some ['n','g'] else if c = 'จ' then some ['t'] else
  if c = 'ฉ' then some ['t'] else if c = 'ช' then some ['t'] else
  if c = 'ซ' then some ['t'] else if c = 'ฌ' then some ['t'] else
  if c = 'ญ' then some ['n'] else if c = 'ฎ' then some ['t'] else
  if c = 'ฏ' then some ['t'] else if c = 'ฐ' then some ['t'] else
  if c = 'ฑ' then some ['t'] else if c = 'ฒ' then some ['t'] else
  if c = 'ณ' then some ['n'] else if c = 'ด' then some ['t'] else
  if c = 'ต' then some ['t'] else if c = 'ถ' then some ['t'] else
  if c = 'ท' then some ['t'] else if c = 'ธ' then some ['t'] else
  if c = 'น' then some ['n'] else if c = 'บ' then some ['p'] else
  if c = 'ป' then some ['p'] else if c = 'ผ' then some ['p'] else
  if c = 'ฝ' then some ['p'] else if c = 'พ' then some ['p'] else
  if c = 'ฟ' then some ['p'] else if c = 'ภ' then some ['p'] else
  if c = 'ม' then some ['m'] else if c = 'ย' then some ['i'] else
  if c = 'ร' then some ['n'] else if c = 'ล' then some ['n'] else
  if c = 'ว' then some ['o'] else if c = 'ศ' then some ['t'] else
  if c = 'ษ' then some ['t'] else if c = 'ส' then some ['t'] else
  if c = 'ห' then some [] else if c = 'ฬ' then some ['n'] else
  if c = 'อ' then some [] else if c = 'ฮ' then some [] else none

/-- `highClass` tone-class set. -/
def highCls (c : Char) : Bool :=
  (['ข','ฃ','ฉ','ฐ','ถ','ผ','ฝ','ศ','ษ','ส','ห'] : List Char).contains c

/-- `lowClass` tone-class set. -/
def lowCls (c : Char) : Bool :=
  (['ค','ฅ','ฆ','ง','ช','ซ','ฌ','ญ','ฑ','ฒ','ณ','ท','ธ','น','พ','ฟ','ภ',
    'ม','ย','ร','ล','ว','ฬ','ฮ'] : List Char).contains c

/-- `midClass` tone-class set. -/
def midCls (c : Char) : Bool :=
  (['ก','จ','ฎ','ฏ','ด','ต','บ','ป','อ'] : List Char).contains c

/-- `clusters` table (package paiboonizer revision, the full set including
ห-leading digraphs): two-consonant initial cluster → romanization. -/
def clusters (c1 c2 : Char) : Option Str :=
  if c1 = 'ก' then
    (if c2 = 'ร' then some ['g','r'] else if c2 = 'ล' then some ['g','l'] else
     if c2 = 'ว' then some ['g','w'] else none)
  else if c1 = 'ข' then
    (if c2 = 'ร' then some ['k','r'] else if c2 = 'ล' then some ['k','l'] else
     if c2 = 'ว' then some ['k','w'] else none)
  else if c1 = 'ค' then
    (if c2 = 'ร' then some ['k','r'] else if c2 = 'ล' then some ['k','l'] else
     if c2 = 'ว' then some ['k','w'] else none)
  else if c1 = 'ป' then
    (if c2 = 'ร' then some ['b','p','r'] else
     if c2 = 'ล' then some ['b','p','l'] else none)
  else if c1 = 'พ' then
    (if c2 = 'ร' then some ['p','r'] else if c2 = 'ล' then some ['p','l'] else none)
  else if c1 = 'ผ' then
    (if c2 = 'ล' then some ['p','l'] else none)
  else if c1 = 'ฟ' then
    (if c2 = 'ร' then some ['f','r'] else if c2 = 'ล' then some ['f','l'] else none)
  else if c1 = 'ต' then
    (if c2 = 'ร' then some ['d','t','r'] else none)
  else if c1 = 'ท' then
    (if c2 = 'ร' then some ['s'] else none)
  else if c1 = 'ด' then
    (if c2 = 'ร' then some ['d','r'] else none)
  else if c1 = 'ห' then
    (if c2 = 'ร' then some ['r'] else if c2 = 'ล' then some ['l'] else
     if c2 = 'ม' then some ['m'] else if c2 = 'น' then some ['n'] else
     if c2 = 'ว' then some ['w'] else if c2 = 'ย' then some ['y'] else
     if c2 = 'ง' then some ['n','g'] else none)
  else if c1 = 'ส' then
    (if c2 = 'ร' then some ['s'] else if c2 = 'ว' then some ['s','w'] else none)
  else if c1 = 'ศ' then
    (if c2 = 'ร' then some ['s'] else none)
  else if c1 = 'ซ' then
    (if c2 = 'ร' then some ['s'] else if c2 = 'ว' then some ['s','w'] else none)
  else if c1 = 'บ' then
    (if c2 = 'ร' then some ['b','r'] else if c2 = 'ล' then some ['b','l'] else none)
  else none

/-- `clusterToneClass`: ห-leading clusters force high tone class. -/
def clusterToneClass (c1 c2 : Char) : Option String :=
  if c1 = 'ห' ∧ (c2 = 'ร' ∨ c2 = 'ล' ∨ c2 = 'ม' ∨ c2 = 'น' ∨ c2 = 'ว' ∨
      c2 = 'ย' ∨ c2 = 'ง') then some "high" else none

/-- `RemoveSilentConsonants`: single left-to-right pass.  At each position,
if the NEXT rune is ์ the current rune and the ์ are skipped; otherwise if the
current rune is a consonant, the next a vowel and the one after ์, all three
are skipped; otherwise the current rune is emitted.  (The Go code checks
`runes[i+1] == '์'` without testing `runes[i]`, and the triple rule requires
`i+2 < len(runes)`.) -/
def removeSilentConsonants : Str → Str
  | [] => []
  | x :: rest =>
    match rest with
    | [] => [x]
    | y :: rest2 =>
      if y = ham then removeSilentConsonants rest2
      else
        match rest2 with
        | [] => [x, y]
        | z :: rest3 =>
          if isConsonant x ∧ isVowel y ∧ z = ham then removeSilentConsonants rest3
          else x :: removeSilentConsonants (y :: z :: rest3)

/-- Combining grave accent U+0300 (low tone). -/
def markGrave : Char := '̀'

/-- Combining acute accent U+0301 (high tone). -/
def markAcute : Char := '́'

/-- Combining circumflex U+0302 (falling tone). -/
def markCirc : Char := '̂'

/-- Combining caron U+030C (rising tone). -/
def markCaron : Char := '̌'

def isCombiningToneMark (c : Char) : Bool :=
  c = markGrave || c = markAcute || c = markCirc || c = markCaron

/-- The `marks` map of `addToneDiacritic`: tone number → combining mark
(missing keys give the empty string, as a Go map lookup does). -/
def toneMarkOf (n : Nat) : Str :=
  if n = 1 then [markGrave] else if n = 2 then [markAcute] else
  if n = 3 then [markCirc] else if n = 4 then [markCaron] else []

def composeGrave (b : Char) : Option Char :=
  if b = 'a' then some 'à' else if b = 'e' then some 'è' else
  if b = 'i' then some 'ì' else if b = 'o' then some 'ò' else
  if b = 'u' then some 'ù' else none

def composeAcute (b : Char) : Option Char :=
  if b = 'a' then some 'á' else if b = 'e' then some 'é' else
  if b = 'i' then some 'í' else if b = 'o' then some 'ó' else
  if b = 'u' then some 'ú' else none

def composeCirc (b : Char) : Option Char :=
  if b = 'a' then some 'â' else if b = 'e' then some 'ê' else
  if b = 'i' then some 'î' else if b = 'o' then some 'ô' else
  if b = 'u' then some 'û' else none

def composeCaron (b : Char) : Option Char :=
  if b = 'a' then some 'ǎ' else if b = 'e' then some 'ě' else
  if b = 'i' then some 'ǐ' else if b = 'o' then some 'ǒ' else
  if b = 'u' then some 'ǔ' else none

/-- Canonical composition of a base character with a combining tone mark,
restricted to the alphabet the romanizer emits (Latin vowels a e i o u compose
with the four tone marks; ə ɛ ɔ ʉ have no precomposed forms in Unicode). -/
def composePair (b m : Char) : Option Char :=
  if m = markGrave then composeGrave b
  else if m = markAcute then composeAcute b
  else if m = markCirc then composeCirc b
  else if m = markCaron then composeCaron b
  else none

/-- Model of `norm.NFC.String` on the romanized alphabet: compose each
(base, combining tone mark) pair.  On strings drawn from the engine's output
alphabet (ASCII letters, ə ɛ ɔ ʉ, precomposed à, '~', '-', and at most one
combining tone mark after a vowel) this agrees with full Unicode NFC. -/
def nfcModel : Str → Str
  | [] => []
  | [c] => [c]
  | a :: b :: rest =>
    match composePair a b with
    | some c => c :: nfcModel rest
    | none => a :: nfcModel (b :: rest)

/-- Canonical decomposition (NFD) of a single character over the same
alphabet. -/
def decomposeChar (c : Char) : Str :=
  if c = 'à' then ['a', markGrave] else if c = 'è' then ['e', markGrave] else
  if c = 'ì' then ['i', markGrave] else if c = 'ò' then ['o', markGrave] else
  if c = 'ù' then ['u', markGrave] else
  if c = 'á' then ['a', markAcute] else if c = 'é' then ['e', markAcute] else
  if c = 'í' then ['i', markAcute] else if c = 'ó' then ['o', markAcute] else
  if c = 'ú' then ['u', markAcute] else
  if c = 'â' then ['a', markCirc] else if c = 'ê' then ['e', markCirc] else
  if c = 'î' then ['i', markCirc] else if c = 'ô' then ['o', markCirc] else
  if c = 'û' then ['u', markCirc] else
  if c = 'ǎ' then ['a', markCaron] else if c = 'ě' then ['e', markCaron] else
  if c = 'ǐ' then ['i', markCaron] else if c = 'ǒ' then ['o', markCaron] else
  if c = 'ǔ' then ['u', markCaron] else [c]

/-- Model of NFD on the romanized alphabet. -/
def decomposeModel (l : Str) : Str := l.flatMap decomposeChar

/-- `strings.HasPrefix`-style check over rune lists. -/
def prefixOf : Str → Str → Bool
  | [], _ => true
  | _ :: _, [] => false
  | a :: as, b :: bs => a = b && prefixOf as bs

/-- `strings.Contains` over rune lists (substring containment). -/
def containsSub : Str → Str → Bool
  | s, sub =>
    if prefixOf sub s then true
    else match s with
      | [] => false
      | _ :: t => containsSub t sub

/-- `strings.HasSuffix` over rune lists. -/
def hasSuffix (s suff : Str) : Bool := prefixOf suff.reverse s.reverse

/-- UTF-8 encoded size in bytes of one code point. -/
def utf8SizeOf (c : Char) : Nat :=
  if c.toNat < 0x80 then 1 else if c.toNat < 0x800 then 2 else
  if c.toNat < 0x10000 then 3 else 4

def utf8Len (s : Str) : Nat := (s.map utf8SizeOf).sum

/-- Model of the Go byte slice `s[:n]` on a UTF-8 string: keep whole code
points while their cumulative byte length fits in `n`.  Every slice the
romanizer performs falls on a code-point boundary (it removes the trailing
two-byte 'ɔ'), where this model agrees with Go exactly. -/
def takeUtf8 : Str → Nat → Str
  | [], _ => []
  | c :: t, n => if utf8SizeOf c ≤ n then c :: takeUtf8 t (n - utf8SizeOf c) else []

/-- `isLiveSyllable`'s long-vowel list. -/
def liveLongVowels : List Str :=
  [['a','a'], ['i','i'], ['ʉ','ʉ'], ['u','u'], ['e','e'], ['ɛ','ɛ'],
   ['o','o'], ['ɔ','ɔ'], ['ə','ə'], ['i','i','a'], ['ʉ','ʉ','a'],
   ['u','u','a'], ['a','i'], ['a','o'], ['a','a','i'], ['a','a','o']]

/-- `isLongVowel`'s long-vowel list (ai and ao are short here). -/
def longVowelPats : List Str :=
  [['a','a','i'], ['a','a','o'], ['a','a'], ['i','i'], ['ʉ','ʉ'], ['u','u'],
   ['e','e'], ['ɛ','ɛ'], ['o','o'], ['ɔ','ɔ'], ['ə','ə'], ['i','i','a'],
   ['ʉ','ʉ','a'], ['u','u','a']]

def lookupFinalStr (s : Str) : Option Str :=
  match s with
  | [c] => finalConsonants c
  | _ => none

def lookupInitialStr (s : Str) : Option Str :=
  match s with
  | [c] => initialConsonants c
  | _ => none

def deadFinal (t : Str) : Bool := t = ['p'] || t = ['t'] || t = ['k']

def sonorantFinal (t : Str) : Bool :=
  t = ['m'] || t = ['n'] || t = ['n','g'] || t = ['i'] || t = ['o']

def highKey (s : Str) : Bool := match s with | [c] => highCls c | _ => false

def lowKey (s : Str) : Bool := match s with | [c] => lowCls c | _ => false

/-- `isLiveSyllable` (paiboonizer_improved.go): a p/t/k final is checked
first and forces dead; then a long vowel, an empty final, or a sonorant final
gives live. -/
def isLiveSyllable (vowel finalCons : Str) : Bool :=
  if (!finalCons.isEmpty) &&
      (match lookupFinalStr finalCons with
       | some tr => deadFinal tr
       | none => false) then false
  else if liveLongVowels.any (fun lv => containsSub vowel lv) then true
  else if finalCons = [] then true
  else match lookupFinalStr finalCons with
    | some tr => sonorantFinal tr
    | none => false

/-- `isLongVowel` (paiboonizer_improved.go). -/
def isLongVowel (vowel : Str) : Bool :=
  longVowelPats.any (fun lp => containsSub vowel lp)

/-- `calculateToneNum` (paiboonizer_improved.go): 0 mid, 1 low, 2 high,
3 falling, 4 rising. -/
def calculateToneNum (toneCls : String) (isLive : Bool) (toneMark : Str)
    (isLong : Bool) : Nat :=
  if toneMark = [] then
    if toneCls = "low" then
      if isLive then 0 else if isLong then 3 else 2
    else if toneCls = "mid" then
      if isLive then 0 else 1
    else if toneCls = "high" then
      if isLive then 4 else 1
    else 0
  else if toneMark = ['่'] then
    if toneCls = "low" then 3 else 1
  else if toneMark = ['้'] then
    if toneCls = "low" then 2 else 3
  else if toneMark = ['๊'] then
    if toneCls = "mid" then 2 else 0
  else if toneMark = ['๋'] then
    if toneCls = "mid" then 4 else 0
  else 0

/-- `addToneDiacritic` (paiboonizer_improved.go): insert the combining mark
right after the first roman-vowel code point, then NFC-normalize; if no vowel
occurs the text is returned unchanged. -/
def addToneDiacritic (text : Str) (toneNum : Nat) : Str :=
  if toneNum = 0 then text
  else
    match text.findIdx? isRomanVowel with
    | some i => nfcModel (text.take (i + 1) ++ toneMarkOf toneNum ++ text.drop (i + 1))
    | none => text

/-- A vowel-pattern template (`VowelPattern` in the Go source): `K` stands for
a two-consonant cluster, `C` for a single consonant, `T` for an optional tone
mark; every other character matches literally. -/
structure VowelPat where
  pat : Str
  pb : Str
  hasFin : Bool
  prio : Int
deriving Repr, DecidableEq

/-- `thaiVowelPatterns` in source order (split into chunks only to keep
elaboration fast; `thaiVowelPatterns` is their concatenation). -/
def thaiVowelPatternsChunk0 : List VowelPat :=
  [⟨"เKียวC".toList, "iao".toList, true, 100⟩,
   ⟨"เCียวC".toList, "iao".toList, true, 99⟩,
   ⟨"เKือยC".toList, "ʉʉai".toList, true, 98⟩,
   ⟨"เCือยC".toList, "ʉʉai".toList, true, 97⟩,
   ⟨"เKียว".toList, "iao".toList, false, 95⟩,
   ⟨"เCียว".toList, "iao".toList, false, 94⟩,
   ⟨"เKือC".toList, "ʉʉa".toList, true, 93⟩,
   ⟨"เCือC".toList, "ʉʉa".toList, true, 92⟩,
   ⟨"เKียC".toList, "iia".toList, true, 91⟩,
   ⟨"เCียC".toList, "iia".toList, true, 90⟩,
   ⟨"เKิTC".toList, "əə".toList, true, 89⟩,
   ⟨"เCิTC".toList, "əə".toList, true, 88⟩,
   ⟨"เKีย".toList, "iia".toList, false, 85⟩,
   ⟨"เCีย".toList, "iia".toList, false, 84⟩,
   ⟨"เKือ".toList, "ʉʉa".toList, false, 83⟩,
   ⟨"เCือ".toList, "ʉʉa".toList, false, 82⟩,
   ⟨"เKาะ".toList, "ɔ".toList, false, 81⟩,
   ⟨"เCาะ".toList, "ɔ".toList, false, 80⟩,
   ⟨"เKอะ".toList, "ə".toList, false, 79⟩,
   ⟨"เCอะ".toList, "ə".toList, false, 78⟩]

def thaiVowelPatternsChunk1 : List VowelPat :=
  [⟨"เKิC".toList, "əə".toList, true, 77⟩,
   ⟨"เCิC".toList, "əə".toList, true, 76⟩,
   ⟨"เKาC".toList, "ao".toList, true, 75⟩,
   ⟨"เCาC".toList, "ao".toList, true, 74⟩,
   ⟨"KัวC".toList, "ua".toList, true, 73⟩,
   ⟨"CัวC".toList, "ua".toList, true, 72⟩,
   ⟨"Kาย".toList, "aai".toList, false, 71⟩,
   ⟨"Kาว".toList, "aao".toList, false, 70⟩,
   ⟨"แK็C".toList, "ɛ".toList, true, 69⟩,
   ⟨"แC็C".toList, "ɛ".toList, true, 68⟩,
   ⟨"แKCC".toList, "ɛɛ".toList, true, 67⟩,
   ⟨"โKCC".toList, "oo".toList, true, 66⟩,
   ⟨"KรรC".toList, "a".toList, true, 65⟩,
   ⟨"CรรC".toList, "a".toList, true, 64⟩,
   ⟨"KระC".toList, "à".toList, true, 68⟩,
   ⟨"CระC".toList, "à".toList, true, 67⟩,
   ⟨"Kระ".toList, "à".toList, false, 66⟩,
   ⟨"Cระ".toList, "à".toList, false, 65⟩,
   ⟨"KราC".toList, "aa".toList, true, 64⟩,
   ⟨"CราC".toList, "aa".toList, true, 63⟩]

def thaiVowelPatternsChunk2 : List VowelPat :=
  [⟨"Kรา".toList, "aa".toList, false, 62⟩,
   ⟨"Cรา".toList, "aa".toList, false, 61⟩,
   ⟨"เKอ".toList, "əə".toList, false, 60⟩,
   ⟨"เCอ".toList, "əə".toList, false, 59⟩,
   ⟨"เKา".toList, "ao".toList, false, 58⟩,
   ⟨"เCา".toList, "ao".toList, false, 57⟩,
   ⟨"เKย".toList, "əəi".toList, false, 56⟩,
   ⟨"เCย".toList, "əəi".toList, false, 55⟩,
   ⟨"เKว".toList, "eeo".toList, false, 54⟩,
   ⟨"เCว".toList, "eeo".toList, false, 53⟩,
   ⟨"เK็C".toList, "e".toList, true, 52⟩,
   ⟨"เC็C".toList, "e".toList, true, 51⟩,
   ⟨"เKC".toList, "ee".toList, true, 50⟩,
   ⟨"เCC".toList, "ee".toList, true, 49⟩,
   ⟨"แKะ".toList, "ɛ".toList, false, 48⟩,
   ⟨"แCะ".toList, "ɛ".toList, false, 47⟩,
   ⟨"แKC".toList, "ɛɛ".toList, true, 46⟩,
   ⟨"แCC".toList, "ɛɛ".toList, true, 45⟩,
   ⟨"แKว".toList, "ɛɛo".toList, false, 44⟩,
   ⟨"แCว".toList, "ɛɛo".toList, false, 43⟩]

def thaiVowelPatternsChunk3 : List VowelPat :=
  [⟨"โKะ".toList, "o".toList, false, 42⟩,
   ⟨"โCะ".toList, "o".toList, false, 41⟩,
   ⟨"โKC".toList, "oo".toList, true, 40⟩,
   ⟨"โCC".toList, "oo".toList, true, 39⟩,
   ⟨"โKย".toList, "ooi".toList, false, 38⟩,
   ⟨"โCย".toList, "ooi".toList, false, 37⟩,
   ⟨"ไKย".toList, "ai".toList, false, 36⟩,
   ⟨"ไCย".toList, "ai".toList, false, 35⟩,
   ⟨"ใKย".toList, "ai".toList, false, 34⟩,
   ⟨"ใCย".toList, "ai".toList, false, 33⟩,
   ⟨"Kัว".toList, "ua".toList, false, 32⟩,
   ⟨"Cัว".toList, "ua".toList, false, 31⟩,
   ⟨"Kวย".toList, "uai".toList, false, 32⟩,
   ⟨"Cวย".toList, "uai".toList, false, 31⟩,
   ⟨"Cาย".toList, "aai".toList, false, 28⟩,
   ⟨"Cาว".toList, "aao".toList, false, 27⟩,
   ⟨"Kรร".toList, "an".toList, false, 26⟩,
   ⟨"Cรร".toList, "an".toList, false, 25⟩,
   ⟨"KัC".toList, "a".toList, true, 24⟩,
   ⟨"KาC".toList, "aa".toList, true, 23⟩]

def thaiVowelPatternsChunk4 : List VowelPat :=
  [⟨"KิC".toList, "i".toList, true, 22⟩,
   ⟨"KีC".toList, "ii".toList, true, 21⟩,
   ⟨"KึC".toList, "ʉ".toList, true, 20⟩,
   ⟨"KืC".toList, "ʉʉ".toList, true, 19⟩,
   ⟨"KุC".toList, "u".toList, true, 18⟩,
   ⟨"KูC".toList, "uu".toList, true, 17⟩,
   ⟨"KอC".toList, "ɔɔ".toList, true, 16⟩,
   ⟨"เK".toList, "ee".toList, false, 15⟩,
   ⟨"เC".toList, "ee".toList, false, 14⟩,
   ⟨"แK".toList, "ɛɛ".toList, false, 13⟩,
   ⟨"แC".toList, "ɛɛ".toList, false, 12⟩,
   ⟨"โK".toList, "oo".toList, false, 11⟩,
   ⟨"โC".toList, "oo".toList, false, 10⟩,
   ⟨"ไK".toList, "ai".toList, false, 9⟩,
   ⟨"ไC".toList, "ai".toList, false, 8⟩,
   ⟨"ใK".toList, "ai".toList, false, 7⟩,
   ⟨"ใC".toList, "ai".toList, false, 6⟩,
   ⟨"Cะ".toList, "a".toList, false, 5⟩,
   ⟨"CัTC".toList, "a".toList, true, 4⟩,
   ⟨"CัC".toList, "a".toList, true, 3⟩]

def thaiVowelPatternsChunk5 : List VowelPat :=
  [⟨"Cา".toList, "aa".toList, false, 2⟩,
   ⟨"CาTC".toList, "aa".toList, true, 1⟩,
   ⟨"CาC".toList, "aa".toList, true, 0⟩,
   ⟨"Cำ".toList, "am".toList, false, -1⟩,
   ⟨"CิTC".toList, "i".toList, true, -2⟩,
   ⟨"CิC".toList, "i".toList, true, -3⟩,
   ⟨"Cิ".toList, "i".toList, false, -4⟩,
   ⟨"CีTC".toList, "ii".toList, true, -5⟩,
   ⟨"CีC".toList, "ii".toList, true, -6⟩,
   ⟨"Cี".toList, "ii".toList, false, -7⟩,
   ⟨"CึTC".toList, "ʉ".toList, true, -8⟩,
   ⟨"CึC".toList, "ʉ".toList, true, -9⟩,
   ⟨"Cึ".toList, "ʉ".toList, false, -10⟩,
   ⟨"CืC".toList, "ʉʉ".toList, true, -11⟩,
   ⟨"Cื".toList, "ʉʉ".toList, false, -12⟩,
   ⟨"CุTC".toList, "u".toList, true, -13⟩,
   ⟨"CุC".toList, "u".toList, true, -14⟩,
   ⟨"Cุ".toList, "u".toList, false, -15⟩,
   ⟨"CูTC".toList, "uu".toList, true, -16⟩,
   ⟨"CูC".toList, "uu".toList, true, -17⟩]

def thaiVowelPatternsChunk6 : List VowelPat :=
  [⟨"Cู".toList, "uu".toList, false, -18⟩,
   ⟨"CTอC".toList, "ɔɔ".toList, true, -19⟩,
   ⟨"CอTC".toList, "ɔɔ".toList, true, -20⟩,
   ⟨"CอC".toList, "ɔɔ".toList, true, -21⟩,
   ⟨"Cอ".toList, "ɔɔ".toList, false, -22⟩,
   ⟨"C็อC".toList, "ɔ".toList, true, -23⟩,
   ⟨"Cร".toList, "ɔɔn".toList, false, -24⟩,
   ⟨"CC".toList, "o".toList, true, -100⟩,
   ⟨"C".toList, "ɔɔ".toList, false, -101⟩]

def thaiVowelPatterns : List VowelPat :=
  thaiVowelPatternsChunk0 ++ thaiVowelPatternsChunk1 ++ thaiVowelPatternsChunk2 ++ thaiVowelPatternsChunk3 ++ thaiVowelPatternsChunk4 ++ thaiVowelPatternsChunk5 ++ thaiVowelPatternsChunk6

/-- The comparison of the pattern-sorting `init`: longer pattern first, then
higher priority.  (`sort.Slice` in Go is an unstable sort; this embedding uses
a stable insertion sort.  Every pair of patterns that ties on both rune length
and priority — แC็C/KระC, แKCC/CระC, CรรC/KราC, Kัว/Kวย, Cัว/Cวย — starts with
characters that cannot match the same syllable, so the match outcome does not
depend on how the unstable sort breaks those ties.) -/
def patBefore (a b : VowelPat) : Bool :=
  if a.pat.length = b.pat.length then a.prio ≥ b.prio
  else a.pat.length > b.pat.length

def insertPat (x : VowelPat) : List VowelPat → List VowelPat
  | [] => [x]
  | y :: ys => if patBefore x y then x :: y :: ys else y :: insertPat x ys

def sortPats (l : List VowelPat) : List VowelPat := l.foldr insertPat []

/-- `sortedVowelPatterns`: the pattern list sorted by (length desc,
priority desc). -/
def sortedVowelPatterns : List VowelPat := sortPats thaiVowelPatterns

/-- Matcher state: initial consonant, initial cluster, final consonant and
tone mark collected while walking the pattern. -/
structure MatchSt where
  initialCons : Str
  initialCluster : Str
  finalCons : Str
  tMark : Str
  isCluster : Bool
deriving Repr, DecidableEq

def emptyMatchSt : MatchSt := ⟨[], [], [], [], false⟩

/-- The scanning loop of `matchPatternImproved`: consumes the pattern and the
word in lock step; fails unless both are exhausted together. -/
def matchGo : Str → Str → MatchSt → Option MatchSt
  | [], [], st => some st
  | [], _ :: _, _ => none
  | _ :: _, [], _ => none
  | p :: ps, w :: ws, st =>
    if p = 'K' then
      match ws with
      | [] => none
      | w2 :: ws2 =>
        if isConsonant w && isConsonant w2 then
          match clusters w w2 with
          | some _ =>
            matchGo ps ws2
              { st with initialCluster := [w, w2], initialCons := [w], isCluster := true }
          | none => none
        else none
    else if p = 'C' then
      if isConsonant w then
        if st.initialCons = [] ∧ st.isCluster = false then
          matchGo ps ws { st with initialCons := [w] }
        else matchGo ps ws { st with finalCons := [w] }
      else none
    else if p = 'T' then
      if isToneMark w then matchGo ps ws { st with tMark := [w] }
      else matchGo ps (w :: ws) st
    else if w = p then matchGo ps ws st
    else none

/-- Result assembly of `matchPatternImproved`: initial (cluster) romanization,
then the template vowel, then the final romanization; when the template vowel
ends in "ɔɔ" and the final romanization is nonempty, the Go code cuts the last
TWO BYTES of the UTF-8 string (`result[:len(result)-2]`), i.e. exactly one
two-byte 'ɔ', before appending "o" and the final. -/
def matchInitialRom (st : MatchSt) : Str :=
  if st.isCluster then
    match st.initialCluster with
    | [c1, c2] => (clusters c1 c2).getD []
    | _ => []
  else if st.initialCons ≠ [] then (lookupInitialStr st.initialCons).getD []
  else []

def buildMatchResult (st : MatchSt) (paiboon : Str) : Str :=
  let result := matchInitialRom st ++ paiboon
  match st.finalCons with
  | [c] =>
    match finalConsonants c with
    | some tr =>
      if hasSuffix paiboon ['ɔ', 'ɔ'] ∧ tr ≠ [] then
        takeUtf8 result (utf8Len result - 2) ++ ['o'] ++ tr
      else result ++ tr
    | none => result
  | _ => result

/-- `applyToneToResult` (paiboonizer_improved.go). -/
def applyToneToResult (result initialCons cluster tMark paiboon finalCons : Str) :
    Str :=
  let clsKey : String × Str :=
    if cluster ≠ [] then
      match cluster with
      | [c1, c2] =>
        match clusterToneClass c1 c2 with
        | some tc => (tc, initialCons)
        | none => ("mid", [c1])
      | _ => ("mid", initialCons)
    else ("mid", initialCons)
  let toneCls :=
    if clsKey.1 = "mid" then
      if highKey clsKey.2 then "high"
      else if lowKey clsKey.2 then "low"
      else "mid"
    else clsKey.1
  let live := isLiveSyllable paiboon finalCons
  let long := isLongVowel paiboon
  let toneNum := calculateToneNum toneCls live tMark long
  if toneNum = 0 then result else addToneDiacritic result toneNum

/-- `matchPatternImproved`: `none` models the Go `(false, "")` return. -/
def matchPatternImproved (word pattern paiboon : Str) : Option Str :=
  if pattern = [] ∨ word = [] then none
  else
    match matchGo pattern word emptyMatchSt with
    | some st =>
      some (applyToneToResult (buildMatchResult st paiboon) st.initialCons
        st.initialCluster st.tMark paiboon st.finalCons)
    | none => none

/-- `improvedTransliterate`: strip silent consonants, then try the sorted
pattern list; the empty string models a miss. -/
def improvedTransliterate (word : Str) : Str :=
  if word = [] then []
  else
    let w := removeSilentConsonants word
    match sortedVowelPatterns.findSome? (fun vp => matchPatternImproved w vp.pat vp.pb) with
    | some r => r
    | none => []

/-- `ComprehensiveSyllable`: the parsed-syllable record. -/
structure CompSyllable where
  LeadingVowel : Str
  Initial1 : Str
  Initial2 : Str
  Vowel1 : Str
  Tone : Str
  Vowel2 : Str
  Final1 : Str
  Final2 : Str
  Silent : Str
deriving Repr, DecidableEq

def emptySyllable : CompSyllable := ⟨[], [], [], [], [], [], [], [], []⟩

def clusterLookupStr (a b : Str) : Option Str :=
  match a, b with
  | [c1], [c2] => clusters c1 c2
  | _, _ => none

/-- Step 3 of `parseThaiSyllable`: absorb vowels, tone marks, special marks,
and finals. -/
def parseLoop : Str → CompSyllable → CompSyllable
  | [], cs => cs
  | r :: rest, cs =>
    if isVowel r then
      if cs.Vowel1 = [] then parseLoop rest { cs with Vowel1 := [r] }
      else parseLoop rest { cs with Vowel2 := cs.Vowel2 ++ [r] }
    else if isToneMark r then parseLoop rest { cs with Tone := [r] }
    else if r = '็' ∨ r = ham ∨ r = 'ํ' ∨ r = 'ๆ' then
      parseLoop rest { cs with Silent := cs.Silent ++ [r] }
    else if isConsonant r then
      if cs.Final1 = [] then parseLoop rest { cs with Final1 := [r] }
      else parseLoop rest { cs with Final2 := [r] }
    else parseLoop rest cs

/-- `parseThaiSyllable` (part_002): strip silent consonants, claim an optional
leading vowel, then one or two initial consonants (a following ร is always
claimed — in the Go code both arms of the ะ/า test consume it — otherwise the
second consonant is claimed only for a valid cluster or a ห-digraph), then
absorb the rest. -/
def parseThaiSyllable (syl : Str) : CompSyllable :=
  let s := removeSilentConsonants syl
  let leadRest : Str × Str :=
    match s with
    | c :: rest => if isLeadingVowel c then ([c], rest) else ([], s)
    | [] => ([], [])
  let initRest : Str × Str × Str :=
    match leadRest.2 with
    | c :: rest =>
      if isConsonant c then
        match rest with
        | c2 :: rest2 =>
          if isConsonant c2 then
            if c2 = 'ร' then ([c], [c2], rest2)
            else if (clusters c c2).isSome then ([c], [c2], rest2)
            else if c = 'ห' ∧ (c2 = 'น' ∨ c2 = 'ม' ∨ c2 = 'ล' ∨ c2 = 'ว' ∨ c2 = 'ย') then
              ([c], [c2], rest2)
            else ([c], [], rest)
          else ([c], [], rest)
        | [] => ([c], [], [])
      else ([], [], leadRest.2)
    | [] => ([], [], [])
  parseLoop initRest.2.2
    { emptySyllable with
        LeadingVowel := leadRest.1
        Initial1 := initRest.1
        Initial2 := initRest.2.1 }

/-- The builder's inline liveness test (part_002, `buildPaiboonFromSyllable`):
live iff the final sound is empty or n/m/ng, or the vowel sound contains one
of aa ii ʉʉ uu ee ɛɛ oo ɔɔ. -/
def builderIsLive (finalSound vowelSound : Str) : Bool :=
  finalSound = [] || finalSound = ['n'] || finalSound = ['m'] ||
  finalSound = ['n','g'] ||
  containsSub vowelSound ['a','a'] || containsSub vowelSound ['i','i'] ||
  containsSub vowelSound ['ʉ','ʉ'] || containsSub vowelSound ['u','u'] ||
  containsSub vowelSound ['e','e'] || containsSub vowelSound ['ɛ','ɛ'] ||
  containsSub vowelSound ['o','o'] || containsSub vowelSound ['ɔ','ɔ']

/-- The builder's inline tone computation (part_002): unlike
`calculateToneNum` it takes no vowel length, and a low-class dead syllable
always gets tone number 2 (high). -/
def builderToneNum (toneCls : String) (isLive : Bool) (tone : Str) : Nat :=
  if tone = [] then
    if toneCls = "low" ∧ isLive = false then 2
    else if toneCls = "high" ∧ isLive = true then 4
    else if toneCls = "high" ∧ isLive = false then 1
    else if toneCls = "mid" ∧ isLive = false then 1
    else 0
  else if tone = ['่'] then
    if toneCls = "low" then 3 else 1
  else if tone = ['้'] then
    if toneCls = "low" then 2 else 3
  else if tone = ['๊'] then
    if toneCls = "mid" then 2 else 0
  else if tone = ['๋'] then
    if toneCls = "mid" then 4 else 0
  else 0

/-- The builder's tone placement: iterate grapheme clusters and append the
mark right after the first cluster containing a roman vowel.  Every romanized
string reaching this point is free of combining marks (the reduced-syllable
vowel "à" is the precomposed U+00E0), so each grapheme cluster is a single
code point and the scan is the same as a per-code-point scan. -/
def builderPlaceTone (result : Str) (mark : Str) : Str :=
  match result.findIdx? isRomanVowel with
  | some i => result.take (i + 1) ++ mark ++ result.drop (i + 1)
  | none => result

/-- `buildPaiboonFromSyllable` (part_002): assemble initial + vowel + final
sounds from a parsed syllable, then apply tone and NFC-normalize. -/
def buildPaiboonFromSyllable (cs : CompSyllable) : Str :=
  let isv : Str × Str × Bool :=
    if cs.Initial2 ≠ [] then
      match clusterLookupStr cs.Initial1 cs.Initial2 with
      | some tr => (tr, cs.Vowel1, false)
      | none =>
        if cs.Initial2 = ['ร'] ∧ (cs.Vowel1 = ['ะ'] ∨ cs.Vowel1 = ['า']) then
          match lookupInitialStr cs.Initial1 with
          | some tr =>
            if cs.Vowel1 = ['ะ'] then (tr ++ ['r', 'à', '~'], [], true)
            else (tr ++ ['r'], cs.Vowel1, false)
          | none => ([], cs.Vowel1, false)
        else if cs.Initial1 = ['ห'] then
          ((lookupInitialStr cs.Initial2).getD [], cs.Vowel1, false)
        else ([], cs.Vowel1, false)
    else if cs.Initial1 ≠ [] then
      ((lookupInitialStr cs.Initial1).getD [], cs.Vowel1, false)
    else ([], cs.Vowel1, false)
  let initialSound := isv.1
  let v1 := isv.2.1
  let vff : Str × Str × Str :=
    if isv.2.2 then ([], cs.Final1, cs.Final2)
    else if cs.LeadingVowel = ['เ'] then
      if v1 = ['ี'] ∧ cs.Vowel2 = ['ย'] then (['i','i','a'], cs.Final1, cs.Final2)
      else if v1 = ['ี'] ∧ cs.Final1 = ['ย'] then (['i','i','a'], cs.Final2, [])
      else if v1 = ['ื'] ∧ cs.Vowel2 = ['อ'] then (['ʉ','ʉ','a'], cs.Final1, cs.Final2)
      else if v1 = ['ื'] ∧ cs.Final1 = ['อ'] then (['ʉ','ʉ','a'], ['n'], cs.Final2)
      else if v1 = [] ∧ cs.Final1 = ['ย'] then (['ə','ə','i'], [], cs.Final2)
      else if v1 = ['า'] then (['a','o'], cs.Final1, cs.Final2)
      else if v1 = ['ิ'] then (['ə','ə'], cs.Final1, cs.Final2)
      else if v1 = ['อ'] then
        (if cs.Final1 = ['ะ'] then (['ə'], [], cs.Final2)
         else (['ə','ə'], cs.Final1, cs.Final2))
      else if v1 = ['็'] then (['e'], cs.Final1, cs.Final2)
      else if v1 = ['า'] ∧ cs.Vowel2 = ['ะ'] then (['ɔ'], cs.Final1, cs.Final2)
      else if v1 = ['ี'] ∧ cs.Vowel2 = ['ย'] ∧ cs.Final1 = ['ว'] then
        (['i','a','o'], [], cs.Final2)
      else if v1 = ['ี'] ∧ cs.Final1 = ['่'] then (['i','i'], cs.Final1, cs.Final2)
      else if v1 = [] then (['e','e'], cs.Final1, cs.Final2)
      else ([], cs.Final1, cs.Final2)
    else if cs.LeadingVowel = ['แ'] then
      if v1 = [] then (['ɛ','ɛ'], cs.Final1, cs.Final2)
      else if v1 = ['ะ'] then (['ɛ'], cs.Final1, cs.Final2)
      else if v1 = ['็'] then (['ɛ'], cs.Final1, cs.Final2)
      else ([], cs.Final1, cs.Final2)
    else if cs.LeadingVowel = ['โ'] then
      if v1 = [] then (['o','o'], cs.Final1, cs.Final2)
      else if v1 = ['ะ'] then (['o'], cs.Final1, cs.Final2)
      else ([], cs.Final1, cs.Final2)
    else if cs.LeadingVowel = ['ไ'] ∨ cs.LeadingVowel = ['ใ'] then
      (['a','i'], cs.Final1, cs.Final2)
    else
      if v1 = ['ั'] ∧ cs.Vowel2 = ['ว'] then (['u','a'], cs.Final1, cs.Final2)
      else if v1 = ['ิ'] ∧ cs.Vowel2 = ['ว'] then (['i','o'], cs.Final1, cs.Final2)
      else if v1 = ['ื'] ∧ cs.Vowel2 = ['อ'] then (['ʉ','ʉ','a'], cs.Final1, cs.Final2)
      else if v1 = ['า'] ∧ cs.Vowel2 = ['ย'] then (['a','a','i'], cs.Final1, cs.Final2)
      else if v1 = ['า'] ∧ cs.Vowel2 = ['ว'] then (['a','a','o'], cs.Final1, cs.Final2)
      else if cs.Initial1 = ['ร'] ∧ v1 = [] ∧ cs.Vowel2 = [] then
        (['ɔ','ɔ'], (if cs.Final1 = [] then ['n'] else cs.Final1), cs.Final2)
      else if v1 = ['า'] then (['a','a'], cs.Final1, cs.Final2)
      else if v1 = ['ะ'] then (['a'], cs.Final1, cs.Final2)
      else if v1 = ['ั'] then (['a'], cs.Final1, cs.Final2)
      else if v1 = ['ิ'] then (['i'], cs.Final1, cs.Final2)
      else if v1 = ['ี'] then (['i','i'], cs.Final1, cs.Final2)
      else if v1 = ['ึ'] then (['ʉ'], cs.Final1, cs.Final2)
      else if v1 = ['ื'] then (['ʉ','ʉ'], cs.Final1, cs.Final2)
      else if v1 = ['ุ'] then (['u'], cs.Final1, cs.Final2)
      else if v1 = ['ู'] then (['u','u'], cs.Final1, cs.Final2)
      else if v1 = ['ำ'] then (['a','m'], cs.Final1, cs.Final2)
      else if v1 = ['ว'] ∧ cs.Final1 = [] then (['u','a'], cs.Final1, cs.Final2)
      else if v1 = [] ∧ cs.Vowel2 = [] then
        (if cs.Final1 = [] then (['ɔ','ɔ'], cs.Final1, cs.Final2)
         else if cs.Final1 = ['ร'] then (['ɔ','ɔ'], cs.Final1, cs.Final2)
         else (['o'], cs.Final1, cs.Final2))
      else ([], cs.Final1, cs.Final2)
  let vowelSound := vff.1
  let final1 := vff.2.1
  let finalSound : Str :=
    if final1 ≠ [] ∧ ¬ cs.Silent.contains ham then
      if final1 = ['n'] then ['n']
      else (lookupFinalStr final1).getD []
    else []
  let result := initialSound ++ vowelSound ++ finalSound
  let toneCls : String :=
    if cs.Initial1 = ['ห'] ∧ cs.Initial2 ≠ [] then "high"
    else if highKey cs.Initial1 then "high"
    else if lowKey cs.Initial1 then "low"
    else "mid"
  let live := builderIsLive finalSound vowelSound
  let toneNum := builderToneNum toneCls live cs.Tone
  let result2 := if toneNum > 0 then builderPlaceTone result (toneMarkOf toneNum) else result
  nfcModel result2

/-- The vowel/mark loop of `findSyllableEndImproved`, walking the suffix
`l.drop i` while tracking the global index and `hasVowel`. -/
def vowelMarkLoop : Str → Nat → Bool → Nat × Bool
  | [], i, h => (i, h)
  | r :: rest, i, h =>
    if isVowel r then vowelMarkLoop rest (i + 1) true
    else if isToneMark r ∨ r = '็' ∨ r = ham ∨ r = 'ํ' ∨ r = 'ๆ' then
      vowelMarkLoop rest (i + 1) h
    else (i, h)

/-- The `nextIsNewSyllable` test inside `findSyllableEndImproved`. -/
def nextIsNewSyl (l : Str) (i : Nat) (hasLead : Bool) : Bool :=
  match l.get? (i + 1) with
  | some nx =>
    isLeadingVowel nx || (isVowel nx && !hasLead) || (isConsonant nx && hasLead)
  | none => false

def isConsAt (l : Str) (i : Nat) : Bool :=
  match l.get? i with
  | some c => isConsonant c
  | none => false

/-- `findSyllableEndImproved` (paiboonizer.go): optional leading vowel, one or
two initial consonants (two kept only for a valid cluster or a ห first), a run
of vowels and marks, an optional final consonant, and a lone-mark fallback. -/
def findSyllableEndImproved (l : Str) (start : Nat) : Nat :=
  if start ≥ l.length then start
  else
    let lead : Bool × Nat :=
      match l.get? start with
      | some c => if isLeadingVowel c then (true, start + 1) else (false, start)
      | none => (false, start)
    let hasLead := lead.1
    let i0 := lead.2
    let cons : Nat × Nat :=
      match l.get? i0 with
      | some c1 =>
        if isConsonant c1 then
          match l.get? (i0 + 1) with
          | some c2 =>
            if isConsonant c2 then
              if (clusters c1 c2).isSome ∨ c1 = 'ห' then (i0 + 2, 2) else (i0 + 1, 1)
            else (i0 + 1, 1)
          | none => (i0 + 1, 1)
        else (i0, 0)
      | none => (i0, 0)
    let i1 := cons.1
    let ccount := cons.2
    let vm := vowelMarkLoop (l.drop i1) i1 hasLead
    let i2 := vm.1
    let hasV := vm.2
    let i3 : Nat :=
      match l.get? i2 with
      | some c =>
        if isConsonant c then
          if hasV then
            if nextIsNewSyl l i2 hasLead then i2 else i2 + 1
          else if ccount = 1 ∧ hasLead = false then i2 + 1
          else i2
        else i2
      | none => i2
    if i3 = start then
      match l.get? i3 with
      | some c => if isToneMark c ∨ c = ham then i3 + 1 else i3
      | none => i3
    else i3

/-- `findSyllableEndComprehensive` (part_002): special เCีย/เCือ and Cระ/Cรา
checks, then the improved finder. -/
def findSyllableEndComprehensive (l : Str) (start : Nat) : Nat :=
  if start ≥ l.length then start
  else
    let special : Option Nat :=
      if start + 3 ≤ l.length then
        let eBlock : Option Nat :=
          if l.get? start = some 'เ' ∧ isConsAt l (start + 1) then
            if start + 4 ≤ l.length ∧ l.get? (start + 2) = some 'ี' ∧
                l.get? (start + 3) = some 'ย' then
              some (if start + 5 ≤ l.length ∧ isConsAt l (start + 4) then start + 5
                    else start + 4)
            else if start + 4 ≤ l.length ∧ l.get? (start + 2) = some 'ื' ∧
                l.get? (start + 3) = some 'อ' then
              some (if start + 5 ≤ l.length ∧ isConsAt l (start + 4) then start + 5
                    else start + 4)
            else none
          else none
        match eBlock with
        | some e => some e
        | none =>
          if start + 2 < l.length ∧ l.get? (start + 1) = some 'ร' then
            if l.get? (start + 2) = some 'ะ' then
              some (if start + 3 < l.length ∧ isConsAt l (start + 3) then start + 4
                    else start + 3)
            else if l.get? (start + 2) = some 'า' then
              some (if start + 3 < l.length ∧ isConsAt l (start + 3) then start + 4
                    else start + 3)
            else none
          else none
      else none
    match special with
    | some e => e
    | none => findSyllableEndImproved l start

/-- `ExtractSyllables` loop; the fuel only bounds the iteration count (the
Go loop advances at least one rune per step, so `l.length + 1` steps always
suffice). -/
def extractSyllablesLoop (l : Str) : Nat → Nat → List Str
  | 0, _ => []
  | fuel + 1, i =>
    if i ≥ l.length then []
    else
      let e := findSyllableEndImproved l i
      if e > i then ((l.drop i).take (e - i)) :: extractSyllablesLoop l fuel e
      else ((l.drop i).take 1) :: extractSyllablesLoop l fuel (i + 1)

/-- `ExtractSyllables` (paiboonizer.go). -/
def extractSyllables (l : Str) : List Str := extractSyllablesLoop l (l.length + 1) 0

/-- The inner longest-match loop of `ComprehensiveTransliterate`, trying the
given length downward: skip lengths that leave exactly one trailing consonant,
then probe special cases, then the syllable dictionary. -/
def findDictMatchLen (special sylD : Store) (l : Str) (i : Nat) :
    Nat → Option (Str × Nat)
  | 0 => none
  | lenM + 1 =>
    let length := lenM + 1
    if i + length ≤ l.length then
      let substr := (l.drop i).take length
      let orphan : Bool :=
        if i + length < l.length then
          decide ((l.drop (i + length)).length = 1) &&
            (match l.drop (i + length) with
             | [c] => isConsonant c
             | _ => false)
        else false
      if orphan then findDictMatchLen special sylD l i lenM
      else
        match special substr with
        | some t => some (nfcModel t, length)
        | none =>
          match sylD substr with
          | some t => some (nfcModel t, length)
          | none => findDictMatchLen special sylD l i lenM
    else findDictMatchLen special sylD l i lenM

/-- The bounded longest-match probe at position `i`: lengths from
`min (|l| - i) 8` down to 1. -/
def findDictMatch (special sylD : Store) (l : Str) (i : Nat) :
    Option (Str × Nat) :=
  findDictMatchLen special sylD l i (min (l.length - i) 8)

/-- The outer scan of `ComprehensiveTransliterate`, collecting emitted
romanizations; fuel bounds iterations as in `extractSyllablesLoop`. -/
def comprehensiveLoop (special sylD : Store) (l : Str) : Nat → Nat → List Str
  | 0, _ => []
  | fuel + 1, i =>
    if i ≥ l.length then []
    else
      match findDictMatch special sylD l i with
      | some (t, len) => t :: comprehensiveLoop special sylD l fuel (i + len)
      | none =>
        let e := findSyllableEndComprehensive l i
        if e > i then
          let syl := (l.drop i).take (e - i)
          let tr := improvedTransliterate syl
          let tr2 := if tr = [] then buildPaiboonFromSyllable (parseThaiSyllable syl) else tr
          if tr2 = [] then comprehensiveLoop special sylD l fuel e
          else tr2 :: comprehensiveLoop special sylD l fuel e
        else
          let tr := buildPaiboonFromSyllable (parseThaiSyllable ((l.drop i).take 1))
          if tr = [] then comprehensiveLoop special sylD l fuel (i + 1)
          else tr :: comprehensiveLoop special sylD l fuel (i + 1)

/-- `ComprehensiveTransliterate` (part_002), with the special-case and
syllable dictionaries as parameters: whole-word special-case lookup, then
whole-word syllable-dictionary lookup, then the longest-match scan with
rule-based fallback; the empty list is returned when nothing was emitted. -/
def comprehensiveTransliterate (special sylD : Store) (word : Str) : Str :=
  match special word with
  | some t => nfcModel t
  | none =>
    match sylD word with
    | some t => nfcModel t
    | none =>
      let results := comprehensiveLoop special sylD word (word.length + 1) 0
      if results = [] then [] else nfcModel results.flatten

/-- `TransliterateWordRulesOnly` (paiboonizer.go) on the path with no
external tokenizer (`globalManager == nil`, the spec's `transliterate_word`):
whole-word dictionary lookup — returned RAW — then
`ComprehensiveTransliterate`. -/
def transliterateWordRulesOnly (dict special sylD : Store) (word : Str) : Str :=
  match dict word with
  | some t => t
  | none => comprehensiveTransliterate special sylD word

/-! Model of the dictionary initialization (`init` and
`extractSyllablesFromDictionary` in paiboonizer.go).  The two Go maps are
modelled as association lists with unique keys; `ainsert` is the map
assignment (replace or append) and `alookup` the map read.  A Go
`for k := range m` iteration delivers each key exactly once in an arbitrary
order, so the two range loops are given adversarial order parameters,
constrained to be permutations of the keys (for the harvesting loop) or of
the entry list (for the special-cases merge). -/

abbrev AList := List (Str × Str)

def alookup : AList → Str → Option Str
  | [], _ => none
  | p :: rest, k => if p.1 = k then some p.2 else alookup rest k

def ainsert : AList → Str → Str → AList
  | [], k, v => [(k, v)]
  | p :: rest, k, v => if p.1 = k then (k, v) :: rest else p :: ainsert rest k v

def akeys (m : AList) : List Str := m.map Prod.fst

/-- One record of the vocabulary load (the `init` function's inner loop):
insert into the word dictionary, and into the syllable dictionary when the
Thai side has no space and is short enough (≤ 5 code points with an unhyphened
romanization, or ≤ 3 unconditionally). -/
def loadRecord (st : AList × AList) (rec : Str × Str) : AList × AList :=
  let dict := ainsert st.1 rec.1 rec.2
  let syl :=
    if ¬ rec.1.contains ' ' then
      if rec.1.length ≤ 5 ∧ ¬ rec.2.contains '-' then ainsert st.2 rec.1 rec.2
      else if rec.1.length ≤ 3 then ainsert st.2 rec.1 rec.2
      else st.2
    else st.2
  (dict, syl)

def loadRecords (records : List (Str × Str)) : AList × AList :=
  records.foldl loadRecord ([], [])

/-- Sorted iteration order of `extractSyllablesFromDictionary`
(`sort.Strings(sortedKeys)`): lexicographic order on rune lists, which agrees
with Go's byte-wise string order because UTF-8 preserves code-point order. -/
def sortKeys (ks : List Str) : List Str := List.insertionSort (· ≤ ·) ks

/-- Harvesting step for one dictionary key: align rule-extracted Thai
syllables with the hyphen-split romanization and register each previously
unknown 2–6 rune syllable. -/
def harvestOne (dict : AList) (syl : AList) (th : Str) : AList :=
  match alookup dict th with
  | none => syl
  | some translit =>
    if translit.contains '-' then
      let thaiS := extractSyllables th
      let romanS := translit.splitOn '-'
      if thaiS.length = romanS.length then
        (thaiS.zip romanS).foldl
          (fun s p =>
            if (alookup s p.1).isNone ∧ 2 ≤ p.1.length ∧ p.1.length ≤ 6 then
              ainsert s p.1 p.2
            else s) syl
      else syl
    else syl

def harvest (dict : AList) (order : List Str) (syl : AList) : AList :=
  (sortKeys order).foldl (harvestOne dict) syl

/-- The special-cases merge at the end of `extractSyllablesFromDictionary`:
insert entries with no hyphen and ≤ 5 runes that are absent. -/
def mergeSpecialOne (syl : AList) (p : Str × Str) : AList :=
  if ¬ p.2.contains '-' ∧ p.1.length ≤ 5 ∧ (alookup syl p.1).isNone then
    ainsert syl p.1 p.2
  else syl

def mergeSpecial (sOrder : List (Str × Str)) (syl : AList) : AList :=
  sOrder.foldl mergeSpecialOne syl

/-- The full initialization of the syllable dictionary: vocabulary load (file
order is fixed: `fs.ReadDir` sorts entries), then sorted-key harvesting with
iteration order `order`, then the special-cases merge with iteration order
`sOrder`. -/
def initSyllableDict (records : List (Str × Str)) (order : List Str)
    (sOrder : List (Str × Str)) : AList :=
  let st := loadRecords records
  mergeSpecial sOrder (harvest st.1 order st.2)

/-! Spec-side definitions, written from the claims' words, for comparison
with the code-derived definitions above. -/

/-- Tone table exactly as claim C1 words it: with no mark — mid live→mid,
mid dead→low, high live→rising, high dead→low, low live→mid, low dead
short→high, low dead long→falling; mai ek: low→falling, mid/high→low;
mai tho: low→high, mid/high→falling; mai tri: mid→high, otherwise the mark is
ignored (no diacritic); mai jattawa: mid→rising, otherwise ignored. -/
def claimToneTable (cls : String) (live : Bool) (isLong : Bool) (mark : Str) : Nat :=
  if mark = [] then
    if cls = "mid" then (if live then 0 else 1)
    else if cls = "high" then (if live then 4 else 1)
    else if cls = "low" then (if live then 0 else if isLong then 3 else 2)
    else 0
  else if mark = ['่'] then
    (if cls = "low" then 3 else if cls = "mid" ∨ cls = "high" then 1 else 0)
  else if mark = ['้'] then
    (if cls = "low" then 2 else if cls = "mid" ∨ cls = "high" then 3 else 0)
  else if mark = ['๊'] then (if cls = "mid" then 2 else 0)
  else if mark = ['๋'] then (if cls = "mid" then 4 else 0)
  else 0

/-- The orphan test of the longest-match scan, as the code words it: the
remainder after the candidate is exactly one code point and a consonant. -/
def orphanSkip (l : Str) (i L : Nat) : Bool :=
  decide (i + L < l.length) && decide ((l.drop (i + L)).length = 1) &&
    (match l.drop (i + L) with
     | [c] => isConsonant c
     | _ => false)

/-- Dictionary probe in the order the scan uses: special cases first, then
the syllable dictionary, each NFC-normalized. -/
def scanProbe (special sylD : Store) (s : Str) : Option Str :=
  match special s with
  | some t => some (nfcModel t)
  | none =>
    match sylD s with
    | some t => some (nfcModel t)
    | none => none

/-- Claim C4's wording of the bounded longest-match probe: try lengths L from
min(|W|−i, 8) down to 1, skip orphan-producing lengths, return the first
dictionary hit. -/
def claimScanResult (special sylD : Store) (l : Str) (i : Nat) :
    Option (Str × Nat) :=
  (((List.range (min (l.length - i) 8)).reverse.map (· + 1)).findSome? fun L =>
    if orphanSkip l i L then none
    else (scanProbe special sylD ((l.drop i).take L)).map (fun t => (t, L)))

/-- A character that is neither precomposed (its decomposition is itself) nor
a combining tone mark; every character the rule engine concatenates before
tone placement is plain except the reduced-syllable vowel "à". -/
def plainChar (c : Char) : Bool := decomposeChar c = [c] && !isCombiningToneMark c

/-- Number of combining tone marks in a string. -/
def countToneMarks (l : Str) : Nat := l.countP isCombiningToneMark

/-- Absence of two consecutive thanthakhat marks. -/
def noAdjHam : Str → Bool
  | [] => true
  | [_] => true
  | x :: y :: rest => !(x = ham && y = ham) && noAdjHam (y :: rest)

/-- No thanthakhat at all. -/
def hamFree (l : Str) : Bool := l.all (· ≠ ham)

/-- No adjacent composable (base, mark) pair — the canonical-composition
normal form over the romanized alphabet. -/
def ncp : Str → Bool
  | [] => true
  | [_] => true
  | a :: b :: rest => (composePair a b).isNone && ncp (b :: rest)

/-- An empty dictionary store. -/
def emptyStore : Store := fun _ => none

/-- A one-entry word-dictionary store used to exhibit lookup precedence. -/
def cexDictStore : Store := fun w => if w = ['ก'] then some ['X'] else none

/-- A one-entry special-cases store conflicting with `cexDictStore` on the
same key. -/
def cexSpecialStore : Store := fun w => if w = ['ก'] then some ['Y'] else none

/-! Theorems. -/

/-- Claim C1, counterexample: the parsed syllable เคิด (low-class initial ค,
long vowel əə, dead final ด→t, no explicit mark) is romanized by the syllable
builder with an ACUTE accent (high tone), while the claim's table demands
falling for a low-class dead syllable with a long vowel.  The conjuncts pin
the classification: the final romanizes to t (dead), the vowel is long by the
engine's own test, ค is low class, and the claimed tone is falling (mark
U+0302), not the acute U+0301 the builder emits. -/
theorem c1_builder_tone_counterexample :
    buildPaiboonFromSyllable ⟨['เ'], ['ค'], [], ['ิ'], [], [], ['ด'], [], []⟩ =
      ['k', 'ə', markAcute, 'ə', 't'] ∧
    finalConsonants 'ด' = some ['t'] ∧ isLongVowel ['ə', 'ə'] = true ∧
    lowCls 'ค' = true ∧ isLiveSyllable ['ə', 'ə'] ['ด'] = false ∧
    claimToneTable "low" false true [] = 3 ∧
    toneMarkOf 3 = [markCirc] ∧ markAcute ≠ markCirc := by
  refine ⟨by decide, by decide, by decide, by decide, by decide, by decide,
    by decide, by decide⟩

/-- Claim C1 (amended): the pattern-matcher path (`calculateToneNum`)
implements the claimed tone table exactly; the syllable-builder path
implements the same table except that it ignores vowel length, giving every
low-class dead syllable the high tone (the short-vowel cell). -/
theorem c1_tone_rules (cls : String) (live isLong : Bool) (mark : Str)
    (hcls : cls = "low" ∨ cls = "mid" ∨ cls = "high")
    (hmark : mark = [] ∨ mark = ['่'] ∨ mark = ['้'] ∨ mark = ['๊'] ∨ mark = ['๋']) :
    calculateToneNum cls live mark isLong = claimToneTable cls live isLong mark ∧
    builderToneNum cls live mark = claimToneTable cls live false mark := by
  rcases hcls with h | h | h <;> subst h <;>
    rcases hmark with m | m | m | m | m <;> subst m <;>
    cases live <;> cases isLong <;> exact ⟨by decide, by decide⟩

/-- Claim C1 witness: the amended theorem applied at a concrete cell
(low class, dead, long vowel, mai ek). -/
theorem c1_tone_rules_witness :
    calculateToneNum "low" false ['่'] true = claimToneTable "low" false true ['่'] ∧
    builderToneNum "low" false ['่'] = claimToneTable "low" false false ['่'] :=
  c1_tone_rules "low" false true ['่'] (Or.inl rfl) (Or.inr (Or.inl rfl))

/-- Claim C2, counterexample: the syllable builder's inline liveness check
classifies บาด (long vowel aa, final ด romanizing to the stop t) as LIVE —
`builderIsLive "t" "aa" = true` — so the whole builder emits mid-tone "baat"
with no tone mark, while the claim says a syllable whose final romanizes to t
is dead (which would give low tone "bàat" here). -/
theorem c2_builder_liveness_counterexample :
    builderIsLive ['t'] ['a', 'a'] = true ∧
    finalConsonants 'ด' = some ['t'] ∧ deadFinal ['t'] = true ∧
    buildPaiboonFromSyllable ⟨[], ['บ'], [], ['า'], [], [], ['ด'], [], []⟩ =
      ['b', 'a', 'a', 't'] ∧
    countToneMarks (decomposeModel ['b', 'a', 'a', 't']) = 0 := by
  refine ⟨by decide, by decide, by decide, by decide, by decide⟩

/-- Claim C2 (amended): the pattern-matcher path (`isLiveSyllable`) satisfies
the invariant — a final romanizing to p/t/k is dead (regardless of the vowel),
a sonorant final (m, n, ng, i, o) is live, and no final is live; the syllable
builder's inline check violates it (see the counterexample), treating
long-vowel stop-final syllables as live and ย/ว-final short syllables as
dead. -/
theorem c2_liveness (vowel f tr : Str) (hf : lookupFinalStr f = some tr) :
    (deadFinal tr = true → isLiveSyllable vowel f = false) ∧
    (sonorantFinal tr = true → isLiveSyllable vowel f = true) ∧
    (∀ v : Str, isLiveSyllable v [] = true) := by
  obtain ⟨c, rfl⟩ : ∃ c, f = [c] := by
    match f, hf with
    | [c], _ => exact ⟨c, rfl⟩
  refine ⟨?_, ?_, ?_⟩
  · intro hd
    simp [isLiveSyllable, hf, hd]
  · intro hs
    have hdead : deadFinal tr = false := by
      simp only [sonorantFinal, Bool.or_eq_true, decide_eq_true_eq] at hs
      rcases hs with (((h | h) | h) | h) | h <;> subst h <;> decide
    simp only [isLiveSyllable, hf, hdead]
    rcases hany : (liveLongVowels.any fun lv => containsSub vowel lv) <;>
      simp [hany, hs]
  · intro v
    simp only [isLiveSyllable]
    rcases hany : (liveLongVowels.any fun lv => containsSub v lv) <;>
      simp [hany, lookupFinalStr]

/-- Claim C2 witness: the amended theorem at the final ด (romanizing to the
dead stop t) with the vowel aa. -/
theorem c2_liveness_witness :
    (deadFinal ['t'] = true → isLiveSyllable ['a', 'a'] ['ด'] = false) ∧
    (sonorantFinal ['t'] = true → isLiveSyllable ['a', 'a'] ['ด'] = true) ∧
    (∀ v : Str, isLiveSyllable v [] = true) :=
  c2_liveness ['a', 'a'] ['ด'] ['t'] (by decide)

/-- Claim C3, counterexample: with a word present in BOTH the word dictionary
(value X) and the special cases (value Y), `transliterate_word` returns the
word-dictionary value, not the special-cases value — the code consults the
word dictionary BEFORE the special cases, contrary to the claimed order. -/
theorem c3_precedence_counterexample :
    transliterateWordRulesOnly cexDictStore cexSpecialStore emptyStore ['ก'] = ['X'] ∧
    cexSpecialStore ['ก'] = some ['Y'] ∧ (['X'] : Str) ≠ ['Y'] := by
  refine ⟨by decide, by decide, by decide⟩

/-- Claim C3 (amended): word-level lookup proceeds WordDict → SpecialCases →
SyllableDict → rules: a word-dictionary hit is returned as stored (even when
the word is also a special case), and only on a word-dictionary miss does a
special-cases hit win, NFC-normalized. -/
theorem c3_precedence (dict special sylD : Store) (w : Str) :
    (∀ t, dict w = some t → transliterateWordRulesOnly dict special sylD w = t) ∧
    (dict w = none → ∀ t, special w = some t →
      transliterateWordRulesOnly dict special sylD w = nfcModel t) := by
  constructor
  · intro t ht
    simp [transliterateWordRulesOnly, ht]
  · intro hd t ht
    simp [transliterateWordRulesOnly, hd, comprehensiveTransliterate, ht]

/-- Claim C3 witness: the amended theorem at the conflicting stores. -/
theorem c3_precedence_witness :
    transliterateWordRulesOnly cexDictStore cexSpecialStore emptyStore ['ก'] = ['X'] :=
  (c3_precedence cexDictStore cexSpecialStore emptyStore ['ก']).1 ['X'] (by decide)

/-- The longest-match inner loop agrees with the claim's wording for every
length budget that fits in the word. -/
theorem findDictMatchLen_eq_claim (special sylD : Store) (l : Str) (i : Nat) :
    ∀ n, i + n ≤ l.length →
      findDictMatchLen special sylD l i n =
        (((List.range n).reverse.map (· + 1)).findSome? fun L =>
          if orphanSkip l i L then none
          else (scanProbe special sylD ((l.drop i).take L)).map (fun t => (t, L))) := by
  intro n
  induction n with
  | zero => intro _; simp [findDictMatchLen]
  | succ m ih =>
    intro hn
    have hlist : ((List.range (m+1)).reverse.map (· + 1)) =
        (m + 1) :: ((List.range m).reverse.map (· + 1)) := by
      rw [List.range_succ, List.reverse_append, List.reverse_singleton,
        List.singleton_append, List.map_cons]
    rw [hlist, List.findSome?_cons]
    have hguard : i + (m + 1) ≤ l.length := hn
    have horph : (if i + (m+1) < l.length then
        (decide ((l.drop (i + (m+1))).length = 1) &&
          (match l.drop (i + (m+1)) with
           | [c] => isConsonant c
           | _ => false))
      else false) = orphanSkip l i (m+1) := by
      unfold orphanSkip
      by_cases h : i + (m+1) < l.length <;> simp [h]
    have hstep : findDictMatchLen special sylD l i (m+1) =
        (match (if orphanSkip l i (m+1) then none
                else (scanProbe special sylD ((l.drop i).take (m+1))).map
                  (fun t => (t, m+1))) with
         | some b => some b
         | none => findDictMatchLen special sylD l i m) := by
      simp only [findDictMatchLen, if_pos hguard]
      rw [horph]
      by_cases ho : orphanSkip l i (m+1) = true
      · simp [ho]
      · have ho' : orphanSkip l i (m+1) = false := by
          revert ho; cases orphanSkip l i (m+1) <;> simp
        cases hsp : special ((l.drop i).take (m+1)) with
        | some t => simp [ho', scanProbe, hsp]
        | none =>
          cases hsy : sylD ((l.drop i).take (m+1)) with
          | some t => simp [ho', scanProbe, hsp, hsy]
          | none => simp [ho', scanProbe, hsp, hsy]
    rw [hstep, ih (by omega)]
    cases hx : (if orphanSkip l i (m+1) = true then none
        else (scanProbe special sylD ((l.drop i).take (m+1))).map
          (fun t => (t, m+1))) <;> simp [hx]

/-- Claim C4: the scanner's bounded longest-match probe equals the claimed
procedure — lengths from min(|W|−i, 8) down to 1, orphan lengths skipped, the
first SpecialCases-or-SyllableDict hit emitted. -/
theorem c4_longest_match (special sylD : Store) (l : Str) (i : Nat) :
    findDictMatch special sylD l i = claimScanResult special sylD l i := by
  unfold findDictMatch claimScanResult
  by_cases h : i ≤ l.length
  · refine findDictMatchLen_eq_claim special sylD l i _ ?_
    have := Nat.min_le_left (l.length - i) 8
    omega
  · have h0 : l.length - i = 0 := by omega
    rw [h0]
    simp [findDictMatchLen]


/-- Strings whose tail contains no thanthakhat are fixed points of the
stripper. -/
theorem strip_fixed : ∀ n (l : Str), l.length ≤ n →
    (∀ c ∈ l.drop 1, c ≠ ham) → removeSilentConsonants l = l := by
  intro n
  induction n with
  | zero =>
    intro l hl _
    have : l = [] := List.eq_nil_of_length_eq_zero (by omega)
    subst this; rfl
  | succ m ih =>
    intro l hl hdrop
    match l with
    | [] => rfl
    | [x] => rfl
    | x :: y :: rest =>
      have hy : y ≠ ham := hdrop y (by simp)
      match rest with
      | [] =>
        simp only [removeSilentConsonants]
        rw [if_neg (by simpa using hy)]
      | z :: rest3 =>
        have hz : z ≠ ham := hdrop z (by simp)
        simp only [removeSilentConsonants]
        rw [if_neg (by simpa using hy), if_neg (by simp [hz])]
        congr 1
        exact ih (y :: z :: rest3) (by simp at hl ⊢; omega)
          (fun c hc => hdrop c (by simpa using Or.inr hc))

/-- On inputs without consecutive thanthakhat marks and not starting with
one, the stripper's output is thanthakhat-free. -/
theorem strip_hamfree : ∀ n (l : Str), l.length ≤ n → noAdjHam l = true →
    l.head? ≠ some ham → hamFree (removeSilentConsonants l) = true := by
  intro n
  induction n with
  | zero =>
    intro l hl _ _
    have : l = [] := List.eq_nil_of_length_eq_zero (by omega)
    subst this; rfl
  | succ m ih =>
    intro l hl hadj hhead
    match l with
    | [] => rfl
    | [x] =>
      have hx : x ≠ ham := by simpa using hhead
      simp [removeSilentConsonants, hamFree, hx]
    | x :: y :: rest =>
      have hx : x ≠ ham := by simpa using hhead
      have hadj' : noAdjHam (y :: rest) = true := by
        simp only [noAdjHam, Bool.and_eq_true] at hadj
        exact hadj.2
      match rest with
      | [] =>
        by_cases hy : y = ham
        · subst hy
          simp [removeSilentConsonants, hamFree]
        · simp only [removeSilentConsonants]
          rw [if_neg (by simpa using hy)]
          simp [hamFree, hx, hy]
      | z :: rest3 =>
        by_cases hy : y = ham
        · subst hy
          simp only [removeSilentConsonants, if_pos]
          have hz : z ≠ ham := by
            simp only [noAdjHam, Bool.and_eq_true] at hadj'
            simpa using hadj'.1
          have hadj'' : noAdjHam (z :: rest3) = true := by
            simp only [noAdjHam, Bool.and_eq_true] at hadj'
            exact hadj'.2
          exact ih (z :: rest3) (by simp at hl ⊢; omega) hadj'' (by simpa using hz)
        · simp only [removeSilentConsonants]
          rw [if_neg (by simpa using hy)]
          by_cases htrip : isConsonant x = true ∧ isVowel y = true ∧ z = ham
          · rw [if_pos (by exact_mod_cast htrip)]
            obtain ⟨-, -, hz⟩ := htrip
            subst hz
            have hzadj : noAdjHam (ham :: rest3) = true := by
              simp only [noAdjHam, Bool.and_eq_true] at hadj'
              exact hadj'.2
            have hr3head : rest3.head? ≠ some ham := by
              match rest3, hzadj with
              | [], _ => simp
              | w :: ws, hh =>
                simp only [noAdjHam, Bool.and_eq_true] at hh
                simpa using hh.1
            have hr3adj : noAdjHam rest3 = true := by
              match rest3, hzadj with
              | [], _ => rfl
              | w :: ws, hh =>
                simp only [noAdjHam, Bool.and_eq_true] at hh
                exact hh.2
            exact ih rest3 (by simp at hl ⊢; omega) hr3adj hr3head
          · rw [if_neg htrip]
            have htail : hamFree (removeSilentConsonants (y :: z :: rest3)) = true :=
              ih (y :: z :: rest3) (by simp at hl ⊢; omega) hadj' (by simpa using hy)
            simp [hamFree] at htail ⊢
            exact ⟨hx, htail⟩

/-- A thanthakhat-free list has a thanthakhat-free tail. -/
theorem hamFree_drop_one {l : Str} (h : hamFree l = true) :
    ∀ c ∈ l.drop 1, c ≠ ham := by
  intro c hc
  have : c ∈ l := List.drop_subset 1 l hc
  simp only [hamFree, List.all_eq_true] at h
  simpa using h c this

/-- Claim C5 (amended): stripping silent consonants is idempotent on every
input in which no thanthakhat immediately follows another thanthakhat (the
counterexample shows the unrestricted claim fails on such degenerate
double-mark inputs). -/
theorem c5_strip_idem (s : Str) (h : noAdjHam s = true) :
    removeSilentConsonants (removeSilentConsonants s) = removeSilentConsonants s := by
  match s with
  | [] => rfl
  | x :: rest =>
    by_cases hx : x = ham
    · subst hx
      match rest with
      | [] => rfl
      | y :: r2 =>
        have hy : y ≠ ham := by
          simp only [noAdjHam, Bool.and_eq_true] at h
          simpa using h.1
        have hadj' : noAdjHam (y :: r2) = true := by
          simp only [noAdjHam, Bool.and_eq_true] at h
          exact h.2
        match r2 with
        | [] =>
          have e : removeSilentConsonants [ham, y] = [ham, y] := by
            simp [removeSilentConsonants, hy]
          rw [e, e]
        | z :: r3 =>
          have hne : ¬(isConsonant ham = true ∧ isVowel y = true ∧ z = ham) := by
            intro hc; exact absurd hc.1 (by decide)
          have hstep : removeSilentConsonants (ham :: y :: z :: r3) =
              ham :: removeSilentConsonants (y :: z :: r3) := by
            simp only [removeSilentConsonants]
            rw [if_neg (by simpa using hy), if_neg hne]
          rw [hstep]
          have hfree : hamFree (removeSilentConsonants (y :: z :: r3)) = true :=
            strip_hamfree (y :: z :: r3).length _ le_rfl hadj' (by simpa using hy)
          cases hTm : removeSilentConsonants (y :: z :: r3) with
          | nil => rfl
          | cons t ts =>
            rw [hTm] at hfree
            have ht : t ≠ ham := by
              simp only [hamFree, List.all_cons, Bool.and_eq_true] at hfree
              simpa using hfree.1
            cases ts with
            | nil => simp [removeSilentConsonants, ht]
            | cons u us =>
              have hne3 : ¬(isConsonant ham = true ∧ isVowel t = true ∧ u = ham) := by
                intro hc; exact absurd hc.1 (by decide)
              simp only [removeSilentConsonants]
              rw [if_neg (by simpa using ht), if_neg hne3]
              congr 1
              exact strip_fixed (t :: u :: us).length _ le_rfl (hamFree_drop_one hfree)
    · have hfree : hamFree (removeSilentConsonants (x :: rest)) = true :=
        strip_hamfree (x :: rest).length _ le_rfl h (by simpa using hx)
      exact strip_fixed _ _ le_rfl (hamFree_drop_one hfree)

/-- Claim C5, counterexample: stripping is NOT idempotent on all inputs — on
กข์์ (two consonants followed by two thanthakhat marks) one pass yields ก์,
whose second pass yields the empty string. -/
theorem c5_strip_counterexample :
    removeSilentConsonants (removeSilentConsonants ['ก', 'ข', ham, ham]) ≠
      removeSilentConsonants ['ก', 'ข', ham, ham] := by decide

/-- Claim C5 witness: idempotence at the concrete input พันธุ์. -/
theorem c5_strip_idem_witness :
    removeSilentConsonants (removeSilentConsonants "พันธุ์".toList) =
      removeSilentConsonants "พันธุ์".toList :=
  c5_strip_idem _ (by decide)


/-- UTF-8 length adds over concatenation. -/
theorem utf8Len_append (a b : Str) : utf8Len (a ++ b) = utf8Len a + utf8Len b := by
  simp [utf8Len]

theorem utf8SizeOf_pos (c : Char) : 1 ≤ utf8SizeOf c := by
  unfold utf8SizeOf
  split_ifs <;> omega

theorem takeUtf8_zero (l : Str) : takeUtf8 l 0 = [] := by
  cases l with
  | nil => rfl
  | cons c t =>
    simp only [takeUtf8]
    rw [if_neg]
    have := utf8SizeOf_pos c
    omega

theorem takeUtf8_append_exact : ∀ (l rest : Str),
    takeUtf8 (l ++ rest) (utf8Len l) = l := by
  intro l
  induction l with
  | nil => intro rest; simp [utf8Len, takeUtf8_zero]
  | cons c t ih =>
    intro rest
    simp only [List.cons_append, takeUtf8]
    rw [if_pos]
    · have : utf8Len (c :: t) - utf8SizeOf c = utf8Len t := by
        simp [utf8Len]
      rw [this]
      simp only [List.append_eq]
      rw [ih]
    · simp [utf8Len]

/-- Claim C6 (amended): for every successful template match whose template
vowel ends in "ɔɔ" and whose final-consonant romanization is non-empty, only
the TRAILING 'ɔ' — the last two bytes of the UTF-8 form — is replaced by a
short "o" before the final is concatenated: the emitted syllable is
initial-romanization ++ vowel-with-final-ɔ-replaced-by-o ++ final. -/
theorem c6_closed_syllable (st : MatchSt) (pre tr : Str) (c : Char)
    (hfc : st.finalCons = [c]) (htr : finalConsonants c = some tr) (hne : tr ≠ []) :
    buildMatchResult st (pre ++ ['ɔ', 'ɔ']) =
      matchInitialRom st ++ pre ++ ['ɔ', 'o'] ++ tr := by
  have hs : hasSuffix (pre ++ ['ɔ', 'ɔ']) ['ɔ', 'ɔ'] = true := by
    simp [hasSuffix, prefixOf, List.reverse_append]
  unfold buildMatchResult
  rw [hfc]
  simp only [htr]
  rw [if_pos ⟨hs, hne⟩]
  have hre : matchInitialRom st ++ (pre ++ ['ɔ', 'ɔ']) =
      (matchInitialRom st ++ pre ++ ['ɔ']) ++ ['ɔ'] := by
    simp
  rw [hre]
  have hlen : utf8Len ((matchInitialRom st ++ pre ++ ['ɔ']) ++ ['ɔ']) - 2 =
      utf8Len (matchInitialRom st ++ pre ++ ['ɔ']) := by
    rw [utf8Len_append]
    have : utf8Len ['ɔ'] = 2 := by decide
    omega
  rw [hlen, takeUtf8_append_exact]
  simp

/-- Claim C6, counterexample: matching นอน against the template CอC (vowel
"ɔɔ", final น romanizing to "n") emits "nɔon", not the "non" the claim
describes — the Go code slices two BYTES (one two-byte 'ɔ'), not the whole
"ɔɔ". -/
theorem c6_adjustment_counterexample :
    matchPatternImproved "นอน".toList "CอC".toList "ɔɔ".toList =
      some "nɔon".toList ∧
    ("nɔon".toList : Str) ≠ "non".toList := by
  exact ⟨by decide, by decide⟩

/-- Claim C6 witness: the amended theorem at the นอน match state. -/
theorem c6_closed_syllable_witness :
    buildMatchResult ⟨['น'], [], ['น'], [], false⟩ (([] : Str) ++ ['ɔ', 'ɔ']) =
      matchInitialRom ⟨['น'], [], ['น'], [], false⟩ ++ ([] : Str) ++ ['ɔ', 'o'] ++ ['n'] :=
  c6_closed_syllable ⟨['น'], [], ['น'], [], false⟩ [] ['n'] 'น' (by decide)
    (by decide) (by decide)


/-- A composed character decomposes back to its base and mark, both of which
are themselves undecomposable. -/
theorem decomposeChar_compose {x y c : Char} (h : composePair x y = some c) :
    decomposeChar c = [x, y] ∧ decomposeChar x = [x] ∧ decomposeChar y = [y] := by
  unfold composePair composeGrave composeAcute composeCirc composeCaron at h
  split_ifs at h <;> simp_all <;> subst h <;> decide

theorem decomposeModel_append (a b : Str) :
    decomposeModel (a ++ b) = decomposeModel a ++ decomposeModel b := by
  simp [decomposeModel]

theorem decompose_nfc : ∀ n (l : Str), l.length ≤ n →
    decomposeModel (nfcModel l) = decomposeModel l := by
  intro n
  induction n with
  | zero =>
    intro l hl
    have : l = [] := List.eq_nil_of_length_eq_zero (by omega)
    subst this; rfl
  | succ m ih =>
    intro l hl
    match l with
    | [] => rfl
    | [c] => rfl
    | a :: b :: rest =>
      simp only [nfcModel]
      cases hc : composePair a b with
      | some c =>
        have h1 : decomposeModel (c :: nfcModel rest) =
            decomposeChar c ++ decomposeModel (nfcModel rest) := by
          simp [decomposeModel]
        obtain ⟨hcc, hxx, hyy⟩ := decomposeChar_compose hc
        rw [h1, ih rest (by simp at hl ⊢; omega), hcc]
        simp [decomposeModel, hxx, hyy]
      | none =>
        have h1 : decomposeModel (a :: nfcModel (b :: rest)) =
            decomposeChar a ++ decomposeModel (nfcModel (b :: rest)) := by
          simp [decomposeModel]
        rw [h1, ih (b :: rest) (by simp at hl ⊢; omega)]
        simp [decomposeModel]

theorem decomposeModel_plain {l : Str} (h : ∀ c ∈ l, plainChar c = true) :
    decomposeModel l = l := by
  induction l with
  | nil => rfl
  | cons c t ih =>
    have hc : decomposeChar c = [c] := by
      have := h c (by simp)
      simp only [plainChar, Bool.and_eq_true, decide_eq_true_eq] at this
      exact this.1
    have ht : decomposeModel t = t := ih (fun x hx => h x (by simp [hx]))
    simp [decomposeModel, hc] at *
    simp [hc, ht]

/-- Claim C7, counterexample: the syllable ฤระบ matches template CระC with
initial ฤ → "rʉ" and the reduced-syllable vowel "à" (precomposed U+00E0); the
computed low tone is inserted after the ʉ, so the output, decomposed, carries
TWO combining tone marks — the inserted grave on ʉ and the grave inside the
template's à — refuting "exactly one combining tone mark appears". -/
theorem c7_placement_counterexample :
    improvedTransliterate "ฤระบ".toList = ['r', 'ʉ', markGrave, 'à', 'p'] ∧
    countToneMarks (decomposeModel ['r', 'ʉ', markGrave, 'à', 'p']) = 2 := by
  exact ⟨by decide, by decide⟩

/-- Claim C7 (amended): on romanized text made of plain characters (no
combining mark, no precomposed vowel — every rule-engine romanization except
those carrying the reduced-syllable "à"), a non-mid tone yields exactly one
combining tone mark, appended immediately after the first character in the
roman-vowel set (index k), the whole then normalized to NFC; texts containing
the precomposed "à" can gain a second mark (see the counterexample). -/
theorem c7_tone_placement (text : Str) (tn k : Nat)
    (hplain : ∀ c ∈ text, plainChar c = true)
    (hfind : text.findIdx? isRomanVowel = some k)
    (htn : tn = 1 ∨ tn = 2 ∨ tn = 3 ∨ tn = 4) :
    decomposeModel (addToneDiacritic text tn) =
      text.take (k + 1) ++ toneMarkOf tn ++ text.drop (k + 1) ∧
    countToneMarks (decomposeModel (addToneDiacritic text tn)) = 1 := by
  have htn0 : tn ≠ 0 := by rcases htn with h | h | h | h <;> omega
  have hmark : ∃ mc, toneMarkOf tn = [mc] ∧ decomposeChar mc = [mc] ∧
      isCombiningToneMark mc = true := by
    rcases htn with h | h | h | h <;> subst h
    · exact ⟨markGrave, by decide, by decide, by decide⟩
    · exact ⟨markAcute, by decide, by decide, by decide⟩
    · exact ⟨markCirc, by decide, by decide, by decide⟩
    · exact ⟨markCaron, by decide, by decide, by decide⟩
  obtain ⟨mc, hm1, hm2, hm3⟩ := hmark
  have hadd : addToneDiacritic text tn =
      nfcModel (text.take (k + 1) ++ toneMarkOf tn ++ text.drop (k + 1)) := by
    unfold addToneDiacritic
    rw [if_neg htn0, hfind]
  have hplaint : ∀ c ∈ text.take (k + 1), plainChar c = true :=
    fun c hc => hplain c (List.take_subset _ _ hc)
  have hplaind : ∀ c ∈ text.drop (k + 1), plainChar c = true :=
    fun c hc => hplain c (List.drop_subset _ _ hc)
  have hdec : decomposeModel (addToneDiacritic text tn) =
      text.take (k + 1) ++ toneMarkOf tn ++ text.drop (k + 1) := by
    rw [hadd, decompose_nfc _ _ le_rfl, decomposeModel_append, decomposeModel_append,
      decomposeModel_plain hplaint, decomposeModel_plain hplaind, hm1]
    simp [decomposeModel, hm2]
  refine ⟨hdec, ?_⟩
  rw [hdec]
  have hnm : ∀ {s : Str}, (∀ c ∈ s, plainChar c = true) → countToneMarks s = 0 := by
    intro s hs
    simp only [countToneMarks, List.countP_eq_zero]
    intro c hc
    have := hs c hc
    simp only [plainChar, Bool.and_eq_true, Bool.not_eq_true'] at this
    simp [this.2]
  simp only [countToneMarks, hm1] at *
  rw [List.countP_append, List.countP_append]
  have h1 := hnm hplaint
  have h2 := hnm hplaind
  simp only [countToneMarks] at h1 h2
  rw [h1, h2]
  simp [hm3]

/-- Claim C7 witness: the placement theorem at the plain text "daan" with the
low tone; the mark lands right after the first vowel. -/
theorem c7_tone_placement_witness :
    decomposeModel (addToneDiacritic ['d', 'a', 'a', 'n'] 1) =
      (['d', 'a', 'a', 'n'] : Str).take 2 ++ toneMarkOf 1 ++
        (['d', 'a', 'a', 'n'] : Str).drop 2 ∧
    countToneMarks (decomposeModel (addToneDiacritic ['d', 'a', 'a', 'n'] 1)) = 1 :=
  c7_tone_placement ['d', 'a', 'a', 'n'] 1 1 (by decide) (by decide) (Or.inl rfl)


/-- Composition succeeds only when the second character is a combining tone
mark. -/
theorem composePair_mark {x y : Char} (h : (composePair x y).isSome = true) :
    isCombiningToneMark y = true := by
  unfold composePair at h
  split_ifs at h with h1 h2 h3 h4
  · subst h1; decide
  · subst h2; decide
  · subst h3; decide
  · subst h4; decide
  · simp at h

theorem composePair_out_not_mark {x y c : Char} (h : composePair x y = some c) :
    isCombiningToneMark c = false := by
  unfold composePair composeGrave composeAcute composeCirc composeCaron at h
  split_ifs at h <;> simp_all <;> subst h <;> decide

/-- The characters produced by canonical composition. -/
theorem composePair_mem {x y c : Char} (h : composePair x y = some c) :
    c ∈ (['à','è','ì','ò','ù','á','é','í','ó','ú','â','ê','î','ô','û',
          'ǎ','ě','ǐ','ǒ','ǔ'] : List Char) := by
  unfold composePair composeGrave composeAcute composeCirc composeCaron at h
  split_ifs at h <;> simp_all <;> subst h <;> decide

theorem composeFuns_none_of_composed {c : Char}
    (hm : c ∈ (['à','è','ì','ò','ù','á','é','í','ó','ú','â','ê','î','ô','û',
          'ǎ','ě','ǐ','ǒ','ǔ'] : List Char)) :
    composeGrave c = none ∧ composeAcute c = none ∧ composeCirc c = none ∧
      composeCaron c = none := by
  fin_cases hm <;> exact ⟨by decide, by decide, by decide, by decide⟩

theorem composePair_none_of_funs {c : Char}
    (h4 : composeGrave c = none ∧ composeAcute c = none ∧ composeCirc c = none ∧
      composeCaron c = none) (z : Char) : composePair c z = none := by
  unfold composePair
  by_cases h1 : z = markGrave
  · rw [if_pos h1]; exact h4.1
  · rw [if_neg h1]
    by_cases h2 : z = markAcute
    · rw [if_pos h2]; exact h4.2.1
    · rw [if_neg h2]
      by_cases h3 : z = markCirc
      · rw [if_pos h3]; exact h4.2.2.1
      · rw [if_neg h3]
        by_cases hq : z = markCaron
        · rw [if_pos hq]; exact h4.2.2.2
        · rw [if_neg hq]

theorem composePair_no_recompose {x y c : Char} (h : composePair x y = some c)
    (z : Char) : composePair c z = none :=
  composePair_none_of_funs (composeFuns_none_of_composed (composePair_mem h)) z

theorem composePair_none_of_not_mark {x y : Char}
    (h : isCombiningToneMark y = false) : composePair x y = none := by
  cases hc : composePair x y with
  | none => rfl
  | some c =>
    have := composePair_mark (x := x) (y := y) (by simp [hc])
    rw [this] at h
    cases h

theorem composePair_mark_base {b y : Char} (hb : isCombiningToneMark b = true) :
    composePair b y = none := by
  have hmem : b ∈ ([markGrave, markAcute, markCirc, markCaron] : List Char) := by
    simp only [isCombiningToneMark, Bool.or_eq_true, decide_eq_true_eq] at hb
    rcases hb with ((h | h) | h) | h <;> subst h <;> simp
  have h4 : composeGrave b = none ∧ composeAcute b = none ∧ composeCirc b = none ∧
      composeCaron b = none := by
    fin_cases hmem <;> exact ⟨by decide, by decide, by decide, by decide⟩
  exact composePair_none_of_funs h4 y

theorem nfcModel_head_not_mark (b : Char) (rest : Str)
    (hb : isCombiningToneMark b = false) :
    ∃ h t, nfcModel (b :: rest) = h :: t ∧ isCombiningToneMark h = false := by
  match rest with
  | [] => exact ⟨b, [], rfl, hb⟩
  | r :: rs =>
    simp only [nfcModel]
    cases hc : composePair b r with
    | some c => exact ⟨c, nfcModel rs, rfl, composePair_out_not_mark hc⟩
    | none => exact ⟨b, nfcModel (r :: rs), rfl, hb⟩

theorem nfc_ncp : ∀ n (l : Str), l.length ≤ n → ncp (nfcModel l) = true := by
  intro n
  induction n with
  | zero =>
    intro l hl
    have : l = [] := List.eq_nil_of_length_eq_zero (by omega)
    subst this; rfl
  | succ m ih =>
    intro l hl
    match l with
    | [] => rfl
    | [c] => rfl
    | a :: b :: rest =>
      have hlen : rest.length ≤ m := by simp at hl; omega
      have hlen1 : (b :: rest).length ≤ m := by simp at hl ⊢; omega
      simp only [nfcModel]
      cases hc : composePair a b with
      | some c =>
        have hX : ncp (nfcModel rest) = true := ih rest hlen
        cases hrm : nfcModel rest with
        | nil => rfl
        | cons h' t' =>
          simp only [ncp, Bool.and_eq_true]
          rw [hrm] at hX
          exact ⟨by simp [composePair_no_recompose hc h'], hX⟩
      | none =>
        have hX : ncp (nfcModel (b :: rest)) = true := ih (b :: rest) hlen1
        have hhead : ∃ h t, nfcModel (b :: rest) = h :: t ∧ composePair a h = none := by
          by_cases hbm : isCombiningToneMark b = true
          · match rest with
            | [] => exact ⟨b, [], rfl, hc⟩
            | r :: rs =>
              refine ⟨b, nfcModel (r :: rs), ?_, hc⟩
              simp only [nfcModel]
              rw [composePair_mark_base hbm]
          · obtain ⟨h, t, he, hm⟩ := nfcModel_head_not_mark b rest
              (by simpa using hbm)
            exact ⟨h, t, he, composePair_none_of_not_mark hm⟩
        obtain ⟨h, t, he, hcomp⟩ := hhead
        rw [he]
        simp only [ncp, Bool.and_eq_true]
        rw [he] at hX
        exact ⟨by simp [hcomp], hX⟩

theorem ncp_fixed : ∀ n (l : Str), l.length ≤ n → ncp l = true → nfcModel l = l := by
  intro n
  induction n with
  | zero =>
    intro l hl _
    have : l = [] := List.eq_nil_of_length_eq_zero (by omega)
    subst this; rfl
  | succ m ih =>
    intro l hl hn
    match l with
    | [] => rfl
    | [c] => rfl
    | a :: b :: rest =>
      simp only [ncp, Bool.and_eq_true, Option.isNone_iff_eq_none] at hn
      simp only [nfcModel, hn.1]
      rw [ih (b :: rest) (by simp at hl ⊢; omega) hn.2]

/-- The NFC model is idempotent. -/
theorem nfc_idem (l : Str) : nfcModel (nfcModel l) = nfcModel l :=
  ncp_fixed (nfcModel l).length _ le_rfl (nfc_ncp l.length l le_rfl)

/-- Claim C8: NFC closure.  Every rule-engine return site normalizes to NFC,
so the output is an NFC fixed point; the only raw return is a whole-word
dictionary hit, whose stored value is NFC by the data-model invariant (the
hypothesis, since the embedded vocabulary is external data). -/
theorem c8_nfc_closure (dict special sylD : Store) (w : Str)
    (hdict : ∀ v, dict w = some v → nfcModel v = v) :
    nfcModel (transliterateWordRulesOnly dict special sylD w) =
      transliterateWordRulesOnly dict special sylD w := by
  unfold transliterateWordRulesOnly
  cases hd : dict w with
  | some t => exact hdict t hd
  | none =>
    unfold comprehensiveTransliterate
    cases hs : special w with
    | some t => exact nfc_idem t
    | none =>
      cases hy : sylD w with
      | some t => exact nfc_idem t
      | none =>
        by_cases hr : comprehensiveLoop special sylD w (w.length + 1) 0 = []
        · simp [hr, nfcModel]
        · simp [hr, nfc_idem]

/-- Claim C8 witness: the closure theorem at empty stores and the word นอน
(hypothesis discharged trivially: an empty store has no values). -/
theorem c8_witness :
    nfcModel (transliterateWordRulesOnly emptyStore emptyStore emptyStore "นอน".toList) =
      transliterateWordRulesOnly emptyStore emptyStore emptyStore "นอน".toList :=
  c8_nfc_closure emptyStore emptyStore emptyStore _ (fun _ h => Option.noConfusion h)


/-! C9 (deterministic initialization) and C10 (error surface). -/
theorem nfcModel_eq_nil {l : Str} : nfcModel l = [] ↔ l = [] := by
  constructor
  · intro h
    match l with
    | [] => rfl
    | [c] => simp [nfcModel] at h
    | a :: b :: rest =>
      simp only [nfcModel] at h
      cases hc : composePair a b <;> rw [hc] at h <;> simp at h
  · rintro rfl; rfl

/-- C10: amended statement.  `transliterate_word` (modelled by
`transliterateWordRulesOnly`) is total by construction (the embedding is a
total function, as the Go code has no panic on this path), but it returns the
empty string exactly when the lookup layers return an empty value or, with all
lookups missing, the bounded longest-match scan emits no chunk at all — which
can happen on inputs that silent-consonant stripping does NOT reduce to
nothing (see the counterexample เอะ). -/
theorem c10_empty_characterization (dict special sylD : Store) (w : Str) :
    transliterateWordRulesOnly dict special sylD w = [] ↔
      (match dict w with
       | some t => t = []
       | none =>
         match special w with
         | some t => t = []
         | none =>
           match sylD w with
           | some t => t = []
           | none =>
             (comprehensiveLoop special sylD w (w.length + 1) 0).flatten = []) := by
  unfold transliterateWordRulesOnly
  cases hd : dict w with
  | some t => simp
  | none =>
    unfold comprehensiveTransliterate
    cases hs : special w with
    | some t => simp [nfcModel_eq_nil]
    | none =>
      cases hy : sylD w with
      | some t => simp [nfcModel_eq_nil]
      | none =>
        by_cases hr : comprehensiveLoop special sylD w (w.length + 1) 0 = []
        · simp [hr]
        · simp [hr, nfcModel_eq_nil]

theorem alookup_ainsert (m : AList) (k' v k : Str) :
    alookup (ainsert m k' v) k = if k' = k then some v else alookup m k := by
  induction m with
  | nil => simp [ainsert, alookup]
  | cons p rest ih =>
    by_cases hp : p.1 = k'
    · simp only [ainsert, if_pos hp]
      by_cases hk : k' = k
      · simp [alookup, hk]
      · simp [alookup, hk]
        rw [if_neg (by rw [hp]; exact hk)]
    · simp only [ainsert, if_neg hp]
      by_cases hpk : p.1 = k
      · have : ¬ k' = k := fun he => hp (by rw [he, hpk])
        simp [alookup, hpk, this]
      · simp [alookup, hpk, ih]

theorem find?_key_perm {l1 l2 : List (Str × Str)} (hp : l1.Perm l2)
    (hnd : (l1.map Prod.fst).Nodup) (k : Str) :
    l1.find? (fun p => p.1 = k) = l2.find? (fun p => p.1 = k) := by
  cases h1 : l1.find? (fun p => p.1 = k) with
  | none =>
    rw [List.find?_eq_none] at h1
    symm
    rw [List.find?_eq_none]
    intro x hx
    exact h1 x (hp.mem_iff.mpr hx)
  | some a =>
    have ha1 : a ∈ l1 := List.mem_of_find?_eq_some h1
    have hpa : a.1 = k := by simpa using List.find?_some h1
    have hsome : (l2.find? (fun p => p.1 = k)).isSome = true := by
      rw [List.find?_isSome]
      exact ⟨a, hp.mem_iff.mp ha1, by simpa using hpa⟩
    obtain ⟨b, hb⟩ := Option.isSome_iff_exists.mp hsome
    have hb2 : b ∈ l2 := List.mem_of_find?_eq_some hb
    have hpb : b.1 = k := by simpa using List.find?_some hb
    have : a = b :=
      List.inj_on_of_nodup_map hnd ha1 (hp.mem_iff.mpr hb2) (by rw [hpa, hpb])
    rw [hb, this]

theorem alookup_mergeSpecialOne_ne (m : AList) (p : Str × Str) (k : Str)
    (hk : p.1 ≠ k) : alookup (mergeSpecialOne m p) k = alookup m k := by
  unfold mergeSpecialOne
  split_ifs with hcond
  · rw [alookup_ainsert, if_neg hk]
  · rfl

theorem mergeSpecial_lookup : ∀ (pairs : List (Str × Str)) (m : AList) (k : Str),
    (pairs.map Prod.fst).Nodup →
    alookup (mergeSpecial pairs m) k =
      (match pairs.find? (fun p => p.1 = k) with
       | some p =>
         if ¬ p.2.contains '-' ∧ p.1.length ≤ 5 ∧ (alookup m p.1).isNone
         then some p.2 else alookup m k
       | none => alookup m k) := by
  intro pairs
  induction pairs with
  | nil => intro m k _; rfl
  | cons p rest ih =>
    intro m k hnd
    have hndr : (rest.map Prod.fst).Nodup := by
      simp only [List.map_cons, List.nodup_cons] at hnd
      exact hnd.2
    have hpnotin : p.1 ∉ rest.map Prod.fst := by
      simp only [List.map_cons, List.nodup_cons] at hnd
      exact hnd.1
    have hstep : mergeSpecial (p :: rest) m = mergeSpecial rest (mergeSpecialOne m p) := rfl
    rw [hstep, ih (mergeSpecialOne m p) k hndr]
    by_cases hk : p.1 = k
    · subst hk
      have hfr : rest.find? (fun q => q.1 = p.1) = none := by
        rw [List.find?_eq_none]
        intro q hq hq1
        exact hpnotin (List.mem_map.mpr ⟨q, hq, by simpa using hq1⟩)
      have hfp : (p :: rest).find? (fun q => q.1 = p.1) = some p :=
        List.find?_cons_of_pos _ (by simp)
      rw [hfr, hfp]
      unfold mergeSpecialOne
      split_ifs with hcond
      · have h1 : '-' ∉ p.2 := by simpa using hcond.1
        have h3 : alookup m p.1 = none := by simpa using hcond.2.2
        simp [alookup_ainsert, h1, hcond.2.1, h3]
      · exact (if_neg hcond).symm
    · have hfp : (p :: rest).find? (fun q => q.1 = k) =
          rest.find? (fun q => q.1 = k) :=
        List.find?_cons_of_neg _ (by simpa using hk)
      rw [hfp]
      have hme : alookup (mergeSpecialOne m p) k = alookup m k :=
        alookup_mergeSpecialOne_ne m p k hk
      cases hfr : rest.find? (fun q => q.1 = k) with
      | none => simpa using hme
      | some q =>
        have hq1 : q.1 = k := by simpa using List.find?_some hfr
        have hqm : alookup (mergeSpecialOne m p) q.1 = alookup m q.1 := by
          rw [hq1]; exact hme
        simp only [hqm, hme]

/-- C9: deterministic initialization.  Two runs of the syllable-dictionary
initialization over the same embedded vocabulary `records` and the same
special-cases table (any two Go-map iteration orders `o1`/`o2` of the word
dictionary keys and any two orders `s1`/`s2` of the special-cases entries,
whose keys are distinct as map keys are) produce syllable dictionaries with
identical contents. -/
theorem c9_deterministic_init (records sp : List (Str × Str))
    (o1 o2 : List Str) (s1 s2 : List (Str × Str))
    (ho1 : o1.Perm (akeys (loadRecords records).1))
    (ho2 : o2.Perm (akeys (loadRecords records).1))
    (hs1 : s1.Perm sp) (hs2 : s2.Perm sp)
    (hnd : (sp.map Prod.fst).Nodup) (k : Str) :
    alookup (initSyllableDict records o1 s1) k =
      alookup (initSyllableDict records o2 s2) k := by
  have hsort : sortKeys o1 = sortKeys o2 := by
    have hperm : (sortKeys o1).Perm (sortKeys o2) :=
      (List.perm_insertionSort _ o1).trans
        ((ho1.trans ho2.symm).trans (List.perm_insertionSort _ o2).symm)
    have h1 : (sortKeys o1).Sorted (fun a b => a ≤ b) :=
      List.sorted_insertionSort _ o1
    have h2 : (sortKeys o2).Sorted (fun a b => a ≤ b) :=
      List.sorted_insertionSort _ o2
    exact List.eq_of_perm_of_sorted hperm h1 h2
  have hnd1 : (s1.map Prod.fst).Nodup := ((hs1.map Prod.fst).nodup_iff).mpr hnd
  have hnd2 : (s2.map Prod.fst).Nodup := ((hs2.map Prod.fst).nodup_iff).mpr hnd
  unfold initSyllableDict
  have hbase : harvest (loadRecords records).1 o1 (loadRecords records).2 =
      harvest (loadRecords records).1 o2 (loadRecords records).2 := by
    unfold harvest
    rw [hsort]
  rw [mergeSpecial_lookup s1 _ k hnd1, mergeSpecial_lookup s2 _ k hnd2, hbase,
    find?_key_perm (hs1.trans hs2.symm) hnd1 k]

def c9recs : List (Str × Str) := [(['ก'], ['a']), (['ข'], ['b'])]

def c9o1 : List Str := [['ก'], ['ข']]

def c9o2 : List Str := [['ข'], ['ก']]

def c9sp : List (Str × Str) := [(['ก'], ['c'])]

theorem c9_deterministic_init_witness :
    (c9o1.Perm (akeys (loadRecords c9recs).1) ∧
     c9o2.Perm (akeys (loadRecords c9recs).1) ∧
     (c9sp.map Prod.fst).Nodup) ∧
    alookup (initSyllableDict c9recs c9o1 c9sp) ['ก'] =
      alookup (initSyllableDict c9recs c9o2 c9sp) ['ก'] :=
  ⟨⟨by decide, by decide, by decide⟩,
   c9_deterministic_init c9recs c9sp c9o1 c9o2 c9sp c9sp
     (by decide) (by decide) (List.Perm.refl c9sp) (List.Perm.refl c9sp)
     (by decide) (['ก'])⟩

/-- C10: counterexample to the original claim.  With empty stores (เอะ is in
none of the repository's tables) the word เอะ romanizes to the empty string,
yet silent-consonant stripping leaves it untouched and nonempty. -/
theorem c10_empty_counterexample :
    transliterateWordRulesOnly emptyStore emptyStore emptyStore
        ("เอะ".toList) = [] ∧
    removeSilentConsonants ("เอะ".toList) = ("เอะ".toList) ∧
    ("เอะ".toList) ≠ [] := by
  refine ⟨by decide, by decide, by decide⟩

end Paiboonizer
